import Mathlib

/-!
# Verification of the SPyCCI ORCA engine (`spycci/engines/orca.py`)

A shallow embedding of the ORCA input-generation and output-parsing code of
the SPyCCI package, together with proofs settling the frozen claims about it.

Modelling conventions:
* an output log file is a `List String` of its lines, each line given
  *without* its trailing newline character; end of file is the end of the
  list.  Python's `readline` returning `""` at EOF, and the distinction
  between an empty line (`"\n"`) and EOF (`""`), are translated explicitly
  at each use site;
* Python floats are modelled as exact rationals (`ℚ`); `float(...)` /
  `int(...)` conversions that raise `ValueError` are modelled by `Option`;
* Python exceptions are modelled as an error value (`PyError`); since a
  Python exception leaves the mutated object in its partially-updated
  state, functions that mutate a `PropertySet` return the state reached
  at the time of the error together with the error;
* Python string operations (`split`, `split(sep)`, `rstrip(chars)`,
  `replace`, `upper`, `endswith`, `count`, the `in` operator) are
  re-implemented below with their Python semantics.
-/

namespace Spycci

/-- Equality on `Except` results is decidable (needed to evaluate the
parser on concrete logs inside proofs). -/
instance {ε α : Type} [DecidableEq ε] [DecidableEq α] : DecidableEq (Except ε α)
  | .error e, .error f =>
    if h : e = f then .isTrue (by rw [h]) else .isFalse (by simp [h])
  | .error _, .ok _ => .isFalse (by simp)
  | .ok _, .error _ => .isFalse (by simp)
  | .ok x, .ok y =>
    if h : x = y then .isTrue (by rw [h]) else .isFalse (by simp [h])

/-! ## Python string primitives -/

/-- Whitespace characters recognised by Python's `str.split()` (the subset
that can actually occur in the parsed logs). -/
def isPyWs (c : Char) : Bool :=
  c = ' ' || c = '\t' || c = '\n' || c = '\r'

/-- Tokenisation performed by Python's `str.split()` (no separator):
maximal runs of non-whitespace characters, empty tokens dropped. -/
def wsTokens : List Char → List (List Char)
  | [] => []
  | [c] => if isPyWs c then [] else [[c]]
  | c :: d :: cs =>
    if isPyWs c then wsTokens (d :: cs)
    else if isPyWs d then [c] :: wsTokens cs
    else
      match wsTokens (d :: cs) with
      | [] => [[c]]
      | t :: ts => (c :: t) :: ts

/-- Python `s.split()`. -/
def pySplitWs (s : String) : List String :=
  (wsTokens s.toList).map (fun l => String.mk l)

/-- Field accumulator for the one-character-separator split. -/
def splitCharAux (sep : Char) : List Char → List Char → List String
  | [], acc => [String.mk acc.reverse]
  | c :: rest, acc =>
    if c = sep then String.mk acc.reverse :: splitCharAux sep rest []
    else splitCharAux sep rest (c :: acc)

/-- Python `s.split(sep)` for a one-character separator.  Empty fields are
kept, exactly as in Python (`"a::b".split(":") == ["a", "", "b"]`). -/
def pySplitChar (sep : Char) (s : String) : List String :=
  splitCharAux sep s.toList []

/-- Scanner for non-overlapping occurrence counting: `cooldown` is the
number of characters still covered by the previous match and therefore not
eligible to start a new one. -/
def countOccAux (m : List Char) : List Char → Nat → Nat
  | [], _ => 0
  | c :: rest, 0 =>
    if m.isPrefixOf (c :: rest) then 1 + countOccAux m rest (m.length - 1)
    else countOccAux m rest 0
  | _ :: rest, k + 1 => countOccAux m rest k

/-- Number of non-overlapping occurrences of `m` in `l`, scanning from the
left: Python's `str.count` (for the non-empty literal markers used by the
parser). -/
def countOcc (m l : List Char) : Nat :=
  if m = [] then 0 else countOccAux m l 0

/-- The Python `in` operator on strings: `sub in line` (for the non-empty
literal markers used by the parser, membership is equivalent to a positive
occurrence count). -/
def pyContains (line sub : String) : Bool :=
  countOcc sub.toList line.toList ≠ 0

/-- Python `s.rstrip(chars)`: remove trailing characters belonging to the
character *set* `chars` (not the suffix `chars`). -/
def pyRstrip (s chars : String) : String :=
  String.mk ((s.toList.reverse.dropWhile (fun c => c ∈ chars.toList)).reverse)

/-- Python `s.endswith(suffix)`. -/
def pyEndsWith (s suffix : String) : Bool :=
  suffix.toList.isSuffixOf s.toList

/-- Python `s.replace(":", "")` (the only `replace` the parser performs):
drop every colon. -/
def pyDropColons (s : String) : String :=
  String.mk (s.toList.filter (fun c => c ≠ ':'))

/-- Python negative indexing `xs[-k]` on a list (`none` models the
`IndexError` raised when the list is too short). -/
def pyNegIdx (xs : List String) (k : Nat) : Option String :=
  if k ≤ xs.length then xs.get? (xs.length - k) else none

/-- Python `str.upper()` (structural recursion over the characters). -/
def pyUpper (s : String) : String :=
  String.mk (s.toList.map Char.toUpper)

/-! ## Python numeric conversions -/

/-- Value of a digit run. -/
def digitsVal (l : List Char) : Nat :=
  l.foldl (fun acc c => 10 * acc + (c.toNat - '0'.toNat)) 0

/-- Python `float(s)` on the decimal forms that occur in ORCA logs
(`[ws] [sign] (digits [. digits] | . digits) [(e|E) [sign] digits] [ws]`),
returning an exact rational.  Inputs outside this grammar (including the
empty string) model a `ValueError` via `none`. -/
def parseFloat? (s : String) : Option ℚ :=
  let cs := (s.toList.dropWhile isPyWs).reverse.dropWhile isPyWs |>.reverse
  let (sgn, cs) : ℚ × List Char :=
    match cs with
    | '+' :: rest => (1, rest)
    | '-' :: rest => (-1, rest)
    | rest => (1, rest)
  let intPart := cs.takeWhile Char.isDigit
  let cs₁ := cs.dropWhile Char.isDigit
  let (fracPart, cs₂) : List Char × List Char :=
    match cs₁ with
    | '.' :: rest => (rest.takeWhile Char.isDigit, rest.dropWhile Char.isDigit)
    | _ => ([], cs₁)
  -- at least one digit must be present in mantissa, and a fractional dot
  -- must actually have been consumed for fracPart to be meaningful
  let hasDot : Bool := match cs₁ with | '.' :: _ => true | _ => false
  if intPart = [] ∧ fracPart = [] then none
  else
    let mant : ℚ := (digitsVal intPart : ℚ) +
      (digitsVal fracPart : ℚ) / ((10 : ℚ) ^ fracPart.length)
    if hasDot = false ∧ cs₁ ≠ cs₂ then none
    else
      match cs₂ with
      | [] => some (sgn * mant)
      | 'e' :: rest => parseExp sgn mant rest
      | 'E' :: rest => parseExp sgn mant rest
      | _ => none
where
  /-- Exponent suffix: `[sign] digits`. -/
  parseExp (sgn mant : ℚ) (rest : List Char) : Option ℚ :=
    let (esgn, ds) : Int × List Char :=
      match rest with
      | '+' :: r => (1, r)
      | '-' :: r => (-1, r)
      | r => (1, r)
    if ds = [] ∨ ¬ ds.all Char.isDigit then none
    else some (sgn * mant * (10 : ℚ) ^ (esgn * (digitsVal ds : Int)))

/-- Python `int(s)`: `[ws] [sign] digits [ws]`. -/
def parseInt? (s : String) : Option Int :=
  let cs := (s.toList.dropWhile isPyWs).reverse.dropWhile isPyWs |>.reverse
  let (sgn, ds) : Int × List Char :=
    match cs with
    | '+' :: rest => (1, rest)
    | '-' :: rest => (-1, rest)
    | rest => (1, rest)
  if ds = [] ∨ ¬ ds.all Char.isDigit then none
  else some (sgn * (digitsVal ds : Int))

/-! ## Errors and the data model -/

/-- The Python exceptions that `OrcaInput.parse_output`
(`src/spycci/engines/orca.py`, lines 1893-2156) can raise.  The first four
are the explicit `RuntimeError`s of the source; the rest model exceptions
raised by the Python runtime during parsing. -/
inductive PyError where
  /-- `RuntimeError("Cannot parse output, the output.out file does not exist.")` -/
  | missingOutputFile
  /-- `RuntimeError("Error occurred during orca calculation")` -/
  | abnormalTermination
  /-- `RuntimeError("Gibbs free energy has been found but G-E(el) has not. ...")` -/
  | gibbsWithoutCorrection
  /-- `RuntimeError("Computed Gibbs Free Energy differs from parsed one. ...")` -/
  | gibbsMismatch
  /-- `TypeError` (e.g. `np.isclose` applied to `None`) -/
  | typeError
  /-- `ValueError` (failed `float(...)` / `int(...)` conversion) -/
  | valueError
  /-- `IndexError` (list subscript out of range) -/
  | indexError
  /-- `AttributeError` (attribute access on `None`) -/
  | attributeError
deriving DecidableEq, Repr

/-- `spycci.core.spectroscopy.VibrationalData`
(populated by the `VIBRATIONAL FREQUENCIES` family of sections). -/
structure VibrationalData where
  frequencies : List ℚ := []
  normal_modes : List (List ℚ) := []
  ir_transitions : List (Int × ℚ) := []
  ir_combination_bands : List (Int × Int × ℚ) := []
  raman_transitions : List (Int × ℚ × ℚ) := []
deriving DecidableEq, Repr

/-- Modelled from the spec: the `PropertySet` class attached to a molecule
is not under `src/` (only its callers in `spycci/engines/orca.py` are).
Spec §3: "Attributes, each optional until set: electronic energy …,
free-energy correction, Gibbs free energy, per-atom Mulliken charges …
and spin populations, per-atom Hirshfeld charges and spin populations,
VibrationalData"; each `set_*` method used by `parse_output` sets the
corresponding attribute (provenance recording is dropped: no claim
mentions it). -/
structure PropertySet where
  electronic_energy : Option ℚ := none
  free_energy_correction : Option ℚ := none
  mulliken_charges : Option (List ℚ) := none
  mulliken_spin_populations : Option (List ℚ) := none
  hirshfeld_charges : Option (List ℚ) := none
  hirshfeld_spin_populations : Option (List ℚ) := none
  vibrational_data : Option VibrationalData := none
deriving DecidableEq, Repr

/-- Modelled from the spec: the Gibbs free energy of a `PropertySet`.
Spec §3 invariant: "Gibbs free energy, when present, must equal electronic
energy + free-energy correction"; `parse_output` reads
`mol.properties.gibbs_free_energy` for its consistency check *without ever
storing a Gibbs value*, so the attribute is the derived sum (it is `None`
when either summand is unset). -/
def PropertySet.gibbs_free_energy (p : PropertySet) : Option ℚ :=
  match p.electronic_energy, p.free_energy_correction with
  | some e, some c => some (e + c)
  | _, _ => none

/-- `np.isclose(a, b, rtol=1e-9)` as called at line 1927: NumPy keeps its
default absolute tolerance `atol = 1e-8`, so the test is
`|a - b| ≤ atol + rtol * |b|`. -/
def npIsClose (a b : ℚ) : Bool :=
  |a - b| ≤ 1 / 10 ^ 8 + (1 / 10 ^ 9) * |b|

/-! ## parse_output, stage 1: energies (orca.py lines 1909-1928) -/

/-- The `"FINAL SINGLE POINT ENERGY"` branch of the energy-scan loop
(lines 1914-1916): the last whitespace token of the line.  An error carries
the `PropertySet` state reached when the exception fires (Python mutates
`mol.properties` in place). -/
def fspeStep (p : PropertySet) (l : String) :
    Except (PyError × PropertySet) PropertySet :=
  if pyContains l "FINAL SINGLE POINT ENERGY" then
    match (pySplitWs l).getLast? with
    | none => .error (.indexError, p)
    | some t =>
      match parseFloat? t with
      | none => .error (.valueError, p)
      | some v => .ok { p with electronic_energy := some v }
  else .ok p

/-- The `"G-E(el)"` branch (lines 1917-1919): the fourth-from-last token. -/
def geStep (p : PropertySet) (l : String) :
    Except (PyError × PropertySet) PropertySet :=
  if pyContains l "G-E(el)" then
    match pyNegIdx (pySplitWs l) 4 with
    | none => .error (.indexError, p)
    | some t =>
      match parseFloat? t with
      | none => .error (.valueError, p)
      | some v => .ok { p with free_energy_correction := some v }
  else .ok p

/-- The `"Final Gibbs free energy"` branch (lines 1920-1921): the
second-from-last token, kept in the loop-local variable. -/
def gibbsStep (p : PropertySet) (g : Option ℚ) (l : String) :
    Except (PyError × PropertySet) (PropertySet × Option ℚ) :=
  if pyContains l "Final Gibbs free energy" then
    match pyNegIdx (pySplitWs l) 2 with
    | none => .error (.indexError, p)
    | some t =>
      match parseFloat? t with
      | none => .error (.valueError, p)
      | some v => .ok (p, some v)
  else .ok (p, g)

/-- One iteration of the energy-scan loop: the three sequential,
non-exclusive `if` branches applied to a single line. -/
def energyLine (p : PropertySet) (g : Option ℚ) (l : String) :
    Except (PyError × PropertySet) (PropertySet × Option ℚ) :=
  match fspeStep p l with
  | .error e => .error e
  | .ok p =>
    match geStep p l with
    | .error e => .error e
    | .ok p => gibbsStep p g l

/-- The energy-scan loop over all lines of the log (lines 1913-1921),
threading the `PropertySet` and the local `gibbs_free_energy` variable. -/
def energyLoop : List String → PropertySet → Option ℚ →
    Except (PyError × PropertySet) (PropertySet × Option ℚ)
  | [], p, g => .ok (p, g)
  | l :: ls, p, g =>
    match energyLine p g l with
    | .error e => .error e
    | .ok (p', g') => energyLoop ls p' g'

/-- The full energy stage including the post-scan sanity check
(lines 1923-1928).  Reading `mol.properties.gibbs_free_energy` while it is
`None` makes `np.isclose` raise a `TypeError`. -/
def energyStage (lines : List String) (p : PropertySet) :
    PropertySet × Option PyError :=
  match energyLoop lines p none with
  | .error (e, p') => (p', some e)
  | .ok (p', gibbs?) =>
    match gibbs? with
    | none => (p', none)
    | some g =>
      if p'.free_energy_correction = none then (p', some .gibbsWithoutCorrection)
      else
        match p'.gibbs_free_energy with
        | none => (p', some .typeError)
        | some c => if npIsClose g c then (p', none) else (p', some .gibbsMismatch)

/-! ## parse_output, stage 2: Mulliken charges (orca.py lines 1932-1982)

The same scanning loop appears verbatim in the legacy package
(`src/compechem/engines/orca.py`, lines 771-819); the only difference is
that the spycci version wraps it in `if sections != 0:`.  The loop is
therefore defined once and used by both scanners. -/

/-- The section marker of the Mulliken scanner. -/
def mullikenMarker : String := "MULLIKEN ATOMIC CHARGES"

/-- `file.read().count("MULLIKEN ATOMIC CHARGES")`.  The marker contains no
newline, so counting occurrences line by line agrees with counting over the
whole file text. -/
def countMullikenSections (lines : List String) : Nat :=
  (lines.map (fun l => countOcc mullikenMarker.toList l.toList)).sum

/-- The inner `while True` loop (lines 1960-1971 / legacy 797-808): read
row lines until one containing `"Sum of atomic charges"`.  At EOF
`readline()` returns `""`, whose split is empty, so `data[2]` raises an
`IndexError`; an empty line behaves the same way.  Returns the accumulated
charge and spin lists and the unread remainder of the file. -/
def readMullikenRows (spinAvailable : Bool) :
    List String → List ℚ → List ℚ → Except PyError (List ℚ × List ℚ × List String)
  | [], _, _ => .error .indexError
  | buffer :: rest, charges, spins =>
    if pyContains buffer "Sum of atomic charges" then .ok (charges, spins, rest)
    else
      let data := pySplitWs (pyDropColons buffer)
      match data.get? 2 with
      | none => .error .indexError
      | some t =>
        match parseFloat? t with
        | none => .error .valueError
        | some q =>
          if spinAvailable then
            match data.get? 3 with
            | none => .error .indexError
            | some t' =>
              match parseFloat? t' with
              | none => .error .valueError
              | some s =>
                readMullikenRows spinAvailable rest (charges ++ [q]) (spins ++ [s])
          else readMullikenRows spinAvailable rest (charges ++ [q]) (spins ++ [0])

/-- The inner Mulliken loop consumes at least the terminating line. -/
theorem readMullikenRows_length (spinAvailable : Bool) :
    ∀ (l : List String) (ch sp a b : List ℚ) (r : List String),
      readMullikenRows spinAvailable l ch sp = .ok (a, b, r) → r.length ≤ l.length := by
  intro l
  induction l with
  | nil => intro ch sp a b r h; simp [readMullikenRows] at h
  | cons buffer rest ih =>
    intro ch sp a b r h
    rw [readMullikenRows] at h
    dsimp only at h
    repeat' split at h
    all_goals first
      | exact Except.noConfusion h
      | (have h9 := ih _ _ _ _ _ h; simp only [List.length_cons]; omega)
      | (obtain ⟨h1, h2, h3⟩ : ch = a ∧ sp = b ∧ rest = r := by simpa using h
         subst h3; simp)

/-- The outer Mulliken `for` loop (lines 1945-1978 / legacy 782-815):
count marker lines, enter the reading branch while `counter == sections`,
and stop once a non-empty charge list has been produced. -/
def mullikenLoop (sections : Nat) : List String → Nat → Bool → List ℚ → List ℚ →
    Except PyError (List ℚ × List ℚ)
  | [], _, _, ch, sp => .ok (ch, sp)
  | line :: rest, counter, spinAvailable, ch, sp =>
    let counter' := if pyContains line mullikenMarker then counter + 1 else counter
    if counter' = sections then
      let sa' := if pyContains line "SPIN" then true else spinAvailable
      match h : readMullikenRows sa' (rest.drop 1) ch sp with
      | .error e => .error e
      | .ok (ch', sp', rest2) =>
        if ch' ≠ [] then .ok (ch', sp')
        else mullikenLoop sections rest2 counter' sa' ch' sp'
    else mullikenLoop sections rest counter' spinAvailable ch sp
termination_by l => l.length
decreasing_by
  · have := readMullikenRows_length _ _ _ _ _ _ _ h
    simp only [List.length_drop] at this
    simp only [List.length_cons]
    omega
  · simp

/-- The spycci Mulliken scanner: the loop guarded by `if sections != 0:`
(line 1939); with no section the charge and spin lists stay empty and no
property is set. -/
def mullikenScanSpycci (lines : List String) : Except PyError (List ℚ × List ℚ) :=
  let sections := countMullikenSections lines
  if sections ≠ 0 then mullikenLoop sections lines 0 false [] []
  else .ok ([], [])

/-- The legacy (compechem) Mulliken scanner: the identical loop entered
unconditionally (legacy lines 771-815). -/
def mullikenScanCompechem (lines : List String) : Except PyError (List ℚ × List ℚ) :=
  mullikenLoop (countMullikenSections lines) lines 0 false [] []

/-- The Mulliken stage of `parse_output` (lines 1932-1982): run the
scanner, then set both properties when a non-empty charge list was read. -/
def mullikenStage (lines : List String) (p : PropertySet) :
    PropertySet × Option PyError :=
  match mullikenScanSpycci lines with
  | .error e => (p, some e)
  | .ok (ch, sp) =>
    if ch ≠ [] then
      ({ p with mulliken_charges := some ch, mulliken_spin_populations := some sp }, none)
    else (p, none)

/-! ## parse_output, stage 3: Hirshfeld charges (orca.py lines 1984-2015) -/

/-- The inner Hirshfeld `while True` loop (lines 1997-2008): read rows
until an empty line (`buffer == "\n"`).  At EOF `readline()` returns `""`
which is not `"\n"`, so `data[2]` raises an `IndexError`. -/
def readHirshfeldRows : List String → List ℚ → List ℚ →
    Except PyError (List ℚ × List ℚ × List String)
  | [], _, _ => .error .indexError
  | buffer :: rest, ch, sp =>
    if buffer = "" then .ok (ch, sp, rest)
    else
      let data := pySplitWs buffer
      match data.get? 2 with
      | none => .error .indexError
      | some t =>
        match parseFloat? t with
        | none => .error .valueError
        | some q =>
          match data.get? 3 with
          | none => .error .indexError
          | some t' =>
            match parseFloat? t' with
            | none => .error .valueError
            | some s => readHirshfeldRows rest (ch ++ [q]) (sp ++ [s])

/-- The inner Hirshfeld loop consumes at least the terminating line. -/
theorem readHirshfeldRows_length :
    ∀ (l : List String) (ch sp a b : List ℚ) (r : List String),
      readHirshfeldRows l ch sp = .ok (a, b, r) → r.length ≤ l.length := by
  intro l
  induction l with
  | nil => intro ch sp a b r h; simp [readHirshfeldRows] at h
  | cons buffer rest ih =>
    intro ch sp a b r h
    rw [readHirshfeldRows] at h
    dsimp only at h
    repeat' split at h
    all_goals first
      | exact Except.noConfusion h
      | (have h9 := ih _ _ _ _ _ h; simp only [List.length_cons]; omega)
      | (obtain ⟨h1, h2, h3⟩ : ch = a ∧ sp = b ∧ rest = r := by simpa using h
         subst h3; simp)

/-- The outer Hirshfeld `for` loop (lines 1988-2011): on each marker line
skip 6 formatting lines and read the table; once a non-empty charge list
exists, the next non-marker line breaks the loop. -/
def hirshfeldLoop : List String → List ℚ → List ℚ → Except PyError (List ℚ × List ℚ)
  | [], ch, sp => .ok (ch, sp)
  | line :: rest, ch, sp =>
    if pyContains line "HIRSHFELD ANALYSIS" then
      match h : readHirshfeldRows (rest.drop 6) ch sp with
      | .error e => .error e
      | .ok (ch', sp', rest2) => hirshfeldLoop rest2 ch' sp'
    else if ch ≠ [] then .ok (ch, sp)
    else hirshfeldLoop rest ch sp
termination_by l => l.length
decreasing_by
  · have := readHirshfeldRows_length _ _ _ _ _ _ h
    simp only [List.length_drop] at this
    simp only [List.length_cons]
    omega
  · simp

/-- The Hirshfeld stage of `parse_output` (lines 1984-2015). -/
def hirshfeldStage (lines : List String) (p : PropertySet) :
    PropertySet × Option PyError :=
  match hirshfeldLoop lines [] [] with
  | .error e => (p, some e)
  | .ok (ch, sp) =>
    if ch ≠ [] then
      ({ p with hirshfeld_charges := some ch, hirshfeld_spin_populations := some sp }, none)
    else (p, none)

/-! ## parse_output, stage 4: vibrational analysis (orca.py lines 2017-2156) -/

/-- Parsing of one line of the `VIBRATIONAL FREQUENCIES` table
(lines 2039-2052): take the text after the last colon, detect and strip the
`" ***imaginary mode***"` suffix (one `logger.warning` when present — the
returned `Nat`), right-strip the characters of `"cm**-1"` and convert to
float.  Note Python's `rstrip` strips a character *set*, not a literal
suffix. -/
def parseFreqLine (buffer : String) : Except PyError (ℚ × Nat) :=
  let substring := ((pySplitChar ':' buffer).getLast?).getD ""
  let (substring, w) :=
    if pyEndsWith substring " ***imaginary mode***" then
      (pyRstrip substring " ***imaginary mode***", 1)
    else (substring, 0)
  match parseFloat? (pyRstrip substring "cm**-1") with
  | none => .error .valueError
  | some f => .ok (f, w)

/-- The `VIBRATIONAL FREQUENCIES` reading loop (lines 2031-2052): read
lines until an empty one, accumulating frequencies and warning count.  At
EOF `readline()` returns `""` (not `"\n"`), and `float("")` raises a
`ValueError`. -/
def readFreqRows : List String → List ℚ → Nat →
    Except PyError (List ℚ × Nat × List String)
  | [], _, _ => .error .valueError
  | buffer :: rest, fs, w =>
    if buffer = "" then .ok (fs, w, rest)
    else
      match parseFreqLine buffer with
      | .error e => .error e
      | .ok (f, w') => readFreqRows rest (fs ++ [f]) (w + w')

/-- The frequency loop consumes at least the terminating line. -/
theorem readFreqRows_length :
    ∀ (l : List String) (fs : List ℚ) (w : Nat) (a : List ℚ) (b : Nat)
      (r : List String), readFreqRows l fs w = .ok (a, b, r) → r.length ≤ l.length := by
  intro l
  induction l with
  | nil => intro fs w a b r h; simp [readFreqRows] at h
  | cons buffer rest ih =>
    intro fs w a b r h
    rw [readFreqRows] at h
    repeat' split at h
    all_goals first
      | exact Except.noConfusion h
      | (have h9 := ih _ _ _ _ _ h; simp only [List.length_cons]; omega)
      | (obtain ⟨h1, h2, h3⟩ : fs = a ∧ w = b ∧ rest = r := by simpa using h
         subst h3; simp)

/-- `for i, element in enumerate(sline[1::]): modes_buffer[i].append(float(element))`
(lines 2080-2081): append each data token of a row to the corresponding
column buffer; a row with more data tokens than columns raises an
`IndexError` (Python evaluates the subscript before the conversion). -/
def appendRowToks : List (List ℚ) → List String → Except PyError (List (List ℚ))
  | bufs, [] => .ok bufs
  | [], _ :: _ => .error .indexError
  | b :: bs, t :: ts =>
    match parseFloat? t with
    | none => .error .valueError
    | some q =>
      match appendRowToks bs ts with
      | .error e => .error e
      | .ok r => .ok ((b ++ [q]) :: r)

/-- The row loop of one normal-mode table block
(`for _ in range(ncoords): ...`, lines 2077-2081).  At EOF `readline()`
returns `""`, whose split is empty, so the row contributes nothing. -/
def readModeRows : Nat → List (List ℚ) → List String →
    Except PyError (List (List ℚ) × List String)
  | 0, bufs, lines => .ok (bufs, lines)
  | n + 1, bufs, [] =>
    -- `"".split()` is empty, so `sline[1::]` is empty and nothing is appended
    readModeRows n bufs []
  | n + 1, bufs, l :: rest =>
    match appendRowToks bufs (pySplitWs l).tail with
    | .error e => .error e
    | .ok bufs' => readModeRows n bufs' rest

/-- Reading rows never lengthens the unread remainder. -/
theorem readModeRows_length :
    ∀ (n : Nat) (bufs : List (List ℚ)) (lines : List String)
      (a : List (List ℚ)) (r : List String),
      readModeRows n bufs lines = .ok (a, r) → r.length ≤ lines.length := by
  intro n
  induction n with
  | zero =>
    intro bufs lines a r h
    obtain ⟨h1, h2⟩ : bufs = a ∧ lines = r := by simpa [readModeRows] using h
    subst h2; simp
  | succ n ih =>
    intro bufs lines a r h
    cases lines with
    | nil => simpa using ih _ _ _ _ h
    | cons l rest =>
      rw [readModeRows] at h
      split at h
      · exact Except.noConfusion h
      · have := ih _ _ _ _ h
        simp only [List.length_cons]
        omega

/-- The `NORMAL MODES` block-tiling loop (lines 2059-2088): each iteration
consumes the block-header line (even the final, terminating one), computes
`modes_left = ncoords - 6 * block` and stops when it is `≤ 0` (with `Nat`
subtraction, when it is `0`); otherwise the block holds
`ncols = min 6 modes_left` columns, whose vectors are read row by row and
appended in reading order.  `hasVib` records whether `vibrational_data` is
not `None`: appending to `None.normal_modes` raises an `AttributeError`. -/
def readModeBlocks (ncoords : Nat) (hasVib : Bool) (block : Nat)
    (acc : List (List ℚ)) (lines : List String) :
    Except PyError (List (List ℚ) × List String) :=
  if ncoords - 6 * block = 0 then .ok (acc, lines.drop 1)
  else
    let ncols := if 6 < ncoords - 6 * block then 6 else ncoords - 6 * block
    match readModeRows ncoords (List.replicate ncols []) (lines.drop 1) with
    | .error e => .error e
    | .ok (bufs, rest') =>
      if hasVib then readModeBlocks ncoords hasVib (block + 1) (acc ++ bufs) rest'
      else .error .attributeError
termination_by ncoords - 6 * block
decreasing_by omega

/-- The block loop never lengthens the unread remainder. -/
theorem readModeBlocks_length (ncoords : Nat) (hasVib : Bool) :
    ∀ (m block : Nat), ncoords - 6 * block = m →
      ∀ (acc a : List (List ℚ)) (lines r : List String),
        readModeBlocks ncoords hasVib block acc lines = .ok (a, r) →
        r.length ≤ lines.length := by
  intro m
  induction m using Nat.strong_induction_on with
  | _ m ih =>
    intro block hb acc a lines r h
    rw [readModeBlocks] at h
    dsimp only at h
    split at h
    · obtain ⟨h1, h2⟩ : acc = a ∧ lines.drop 1 = r := by simpa using h
      subst h2; simp
    · rename_i hne
      split at h
      · exact Except.noConfusion h
      · rename_i bufs rest' heq
        split at h
        · have hlt : ncoords - 6 * (block + 1) < m := by omega
          have h1 := ih _ hlt (block + 1) rfl _ _ _ _ h
          have h2 := readModeRows_length _ _ _ _ _ heq
          simp only [List.length_drop] at h2
          omega
        · exact Except.noConfusion h

/-- One row of the `IR SPECTRUM` table (lines 2095-2107): colon-split, mode
index before the colon, intensity is the third whitespace token after it.
At EOF `int("")` raises a `ValueError`.  `hasVib` as in the mode reader. -/
def readIRRows (hasVib : Bool) : List String → List (Int × ℚ) →
    Except PyError (List (Int × ℚ) × List String)
  | [], _ => .error .valueError
  | line :: rest, acc =>
    if line = "" then .ok (acc, rest)
    else
      let sline := pySplitChar ':' line
      match parseInt? (sline.head?.getD "") with
      | none => .error .valueError
      | some i =>
        match sline.get? 1 with
        | none => .error .indexError
        | some s1 =>
          match (pySplitWs s1).get? 2 with
          | none => .error .indexError
          | some t =>
            match parseFloat? t with
            | none => .error .valueError
            | some q =>
              if hasVib then readIRRows hasVib rest (acc ++ [(i, q)])
              else .error .attributeError

/-- The IR loop consumes at least the terminating line. -/
theorem readIRRows_length (hasVib : Bool) :
    ∀ (l : List String) (acc a : List (Int × ℚ)) (r : List String),
      readIRRows hasVib l acc = .ok (a, r) → r.length ≤ l.length := by
  intro l
  induction l with
  | nil => intro acc a r h; simp [readIRRows] at h
  | cons line rest ih =>
    intro acc a r h
    rw [readIRRows] at h
    dsimp only at h
    repeat' split at h
    all_goals first
      | exact Except.noConfusion h
      | (have h9 := ih _ _ _ h; simp only [List.length_cons]; omega)
      | (obtain ⟨h1, h2⟩ : acc = a ∧ rest = r := by simpa using h
         subst h2; simp)

/-- One row of the `OVERTONES AND COMBINATION BANDS` table
(lines 2114-2131): the field before the colon holds two mode indices joined
by `+`; the intensity is the third whitespace token after the colon. -/
def readOvertoneRows (hasVib : Bool) : List String → List (Int × Int × ℚ) →
    Except PyError (List (Int × Int × ℚ) × List String)
  | [], _ => .error .valueError
  | line :: rest, acc =>
    if line = "" then .ok (acc, rest)
    else
      let sline := pySplitChar ':' line
      match (pySplitChar '+' (sline.head?.getD "")).mapM parseInt? with
      | none => .error .valueError
      | some idxs =>
        match sline.get? 1 with
        | none => .error .indexError
        | some s1 =>
          match (pySplitWs s1).get? 2 with
          | none => .error .indexError
          | some t =>
            match parseFloat? t with
            | none => .error .valueError
            | some q =>
              match idxs.get? 0, idxs.get? 1 with
              | some i0, some i1 =>
                if hasVib then readOvertoneRows hasVib rest (acc ++ [(i0, i1, q)])
                else .error .attributeError
              | _, _ => .error .indexError

/-- The overtone loop consumes at least the terminating line. -/
theorem readOvertoneRows_length (hasVib : Bool) :
    ∀ (l : List String) (acc a : List (Int × Int × ℚ)) (r : List String),
      readOvertoneRows hasVib l acc = .ok (a, r) → r.length ≤ l.length := by
  intro l
  induction l with
  | nil => intro acc a r h; simp [readOvertoneRows] at h
  | cons line rest ih =>
    intro acc a r h
    rw [readOvertoneRows] at h
    dsimp only at h
    repeat' split at h
    all_goals first
      | exact Except.noConfusion h
      | (have h9 := ih _ _ _ h; simp only [List.length_cons]; omega)
      | (obtain ⟨h1, h2⟩ : acc = a ∧ rest = r := by simpa using h
         subst h2; simp)

/-- One row of the `RAMAN SPECTRUM` table (lines 2138-2153): mode index
before the colon, activity and depolarization are the second and third
whitespace tokens after it. -/
def readRamanRows (hasVib : Bool) : List String → List (Int × ℚ × ℚ) →
    Except PyError (List (Int × ℚ × ℚ) × List String)
  | [], _ => .error .valueError
  | line :: rest, acc =>
    if line = "" then .ok (acc, rest)
    else
      let sline := pySplitChar ':' line
      match parseInt? (sline.head?.getD "") with
      | none => .error .valueError
      | some i =>
        match sline.get? 1 with
        | none => .error .indexError
        | some s1 =>
          match (pySplitWs s1).get? 1 with
          | none => .error .indexError
          | some t1 =>
            match parseFloat? t1 with
            | none => .error .valueError
            | some act =>
              match (pySplitWs s1).get? 2 with
              | none => .error .indexError
              | some t2 =>
                match parseFloat? t2 with
                | none => .error .valueError
                | some dep =>
                  if hasVib then readRamanRows hasVib rest (acc ++ [(i, act, dep)])
                  else .error .attributeError

/-- The Raman loop consumes at least the terminating line. -/
theorem readRamanRows_length (hasVib : Bool) :
    ∀ (l : List String) (acc a : List (Int × ℚ × ℚ)) (r : List String),
      readRamanRows hasVib l acc = .ok (a, r) → r.length ≤ l.length := by
  intro l
  induction l with
  | nil => intro acc a r h; simp [readRamanRows] at h
  | cons line rest ih =>
    intro acc a r h
    rw [readRamanRows] at h
    dsimp only at h
    repeat' split at h
    all_goals first
      | exact Except.noConfusion h
      | (have h9 := ih _ _ _ h; simp only [List.length_cons]; omega)
      | (obtain ⟨h1, h2⟩ : acc = a ∧ rest = r := by simpa using h
         subst h2; simp)

/-- The vibrational `for` loop of `parse_output` (lines 2019-2153):
an `if/elif` chain over the five section markers, consuming the formatting
lines and the section tables; a fresh `VibrationalData` is created at each
`VIBRATIONAL FREQUENCIES` marker.  The `Nat` accumulates the number of
warnings emitted for imaginary modes.  `ncoords = 3 * mol.geometry.atomcount`. -/
def vibLoop (ncoords : Nat) : List String → Option VibrationalData → Nat →
    Except PyError (Option VibrationalData × Nat)
  | [], vd, w => .ok (vd, w)
  | line :: rest, vd, w =>
    if pyContains line "VIBRATIONAL FREQUENCIES" then
      match hf : readFreqRows (rest.drop 4) [] 0 with
      | .error e => .error e
      | .ok (fs, w', rest2) =>
        vibLoop ncoords rest2 (some { frequencies := fs }) (w + w')
    else if pyContains line "NORMAL MODES" then
      match hm : readModeBlocks ncoords vd.isSome 0 [] (rest.drop 6) with
      | .error e => .error e
      | .ok (vecs, rest2) =>
        vibLoop ncoords rest2
          (vd.map (fun v => { v with normal_modes := v.normal_modes ++ vecs })) w
    else if pyContains line "IR SPECTRUM" then
      match hi : readIRRows vd.isSome (rest.drop 5) [] with
      | .error e => .error e
      | .ok (ts, rest2) =>
        vibLoop ncoords rest2
          (vd.map (fun v => { v with ir_transitions := v.ir_transitions ++ ts })) w
    else if pyContains line "OVERTONES AND COMBINATION BANDS" then
      match ho : readOvertoneRows vd.isSome (rest.drop 5) [] with
      | .error e => .error e
      | .ok (ts, rest2) =>
        vibLoop ncoords rest2
          (vd.map (fun v => { v with ir_combination_bands := v.ir_combination_bands ++ ts })) w
    else if pyContains line "RAMAN SPECTRUM" then
      match hr : readRamanRows vd.isSome (rest.drop 4) [] with
      | .error e => .error e
      | .ok (ts, rest2) =>
        vibLoop ncoords rest2
          (vd.map (fun v => { v with raman_transitions := v.raman_transitions ++ ts })) w
    else vibLoop ncoords rest vd w
termination_by l => l.length
decreasing_by
  · have := readFreqRows_length _ _ _ _ _ _ hf
    simp only [List.length_drop] at this
    simp only [List.length_cons]
    omega
  · have := readModeBlocks_length _ _ _ _ rfl _ _ _ _ hm
    simp only [List.length_drop] at this
    simp only [List.length_cons]
    omega
  · have := readIRRows_length _ _ _ _ _ hi
    simp only [List.length_drop] at this
    simp only [List.length_cons]
    omega
  · have := readOvertoneRows_length _ _ _ _ _ ho
    simp only [List.length_drop] at this
    simp only [List.length_cons]
    omega
  · have := readRamanRows_length _ _ _ _ _ hr
    simp only [List.length_drop] at this
    simp only [List.length_cons]
    omega
  · simp

/-- The vibrational stage of `parse_output` (lines 2017-2156): run the
loop and, when a `VibrationalData` object was created, store it. -/
def vibStage (lines : List String) (atomcount : Nat) (p : PropertySet) :
    PropertySet × Option PyError :=
  match vibLoop (3 * atomcount) lines none 0 with
  | .error e => (p, some e)
  | .ok (vd?, _) =>
    match vd? with
    | some vd => ({ p with vibrational_data := some vd }, none)
    | none => (p, none)

/-! ## parse_output (orca.py lines 1864-2156) -/

/-- The scan for the ORCA termination marker (lines 1898-1903). -/
def hasNormalTermination (lines : List String) : Bool :=
  lines.any (fun l => pyContains l "****ORCA TERMINATED NORMALLY****")

/-- `OrcaInput.parse_output(mol)`.  The file is `none` when `output.out`
does not exist.  The result is the final state of `mol.properties`
together with the raised exception, if any: a Python exception aborts the
remaining stages but keeps every property already set (mutation in
place). -/
def parse_output (file : Option (List String)) (atomcount : Nat)
    (p : PropertySet) : PropertySet × Option PyError :=
  match file with
  | none => (p, some .missingOutputFile)
  | some lines =>
    if hasNormalTermination lines = false then (p, some .abnormalTermination)
    else
      match energyStage lines p with
      | (p1, some e) => (p1, some e)
      | (p1, none) =>
        match mullikenStage lines p1 with
        | (p2, some e) => (p2, some e)
        | (p2, none) =>
          match hirshfeldStage lines p2 with
          | (p3, some e) => (p3, some e)
          | (p3, none) => vibStage lines atomcount p3

/-! ## OrcaJobInfo (orca.py lines 21-492) -/

/-- A value stored in an ORCA `%`-block: either a plain entry (rendered with
`str(...)`, so integers are pre-rendered as strings here) or a nested
key/value table (the one nesting level `write_input` renders). -/
inductive BlockVal where
  | prim (s : String)
  | table (kv : List (String × String))
deriving DecidableEq, Repr

/-- One `%`-block: an insertion-ordered dictionary. -/
abbrev Block := List (String × BlockVal)

/-- The block dictionary: block name → block, insertion-ordered. -/
abbrev Blocks := List (String × Block)

/-- Python dictionary assignment `d[k] = v`: update in place when the key
exists (keeping its position), append otherwise. -/
def dictSet (d : Block) (k : String) (v : BlockVal) : Block :=
  if d.any (fun kv => kv.1 = k) then
    d.map (fun kv => if kv.1 = k then (k, v) else kv)
  else d ++ [(k, v)]

/-- `self.user_blocks[name]` lookup. -/
def dictGet (bs : Blocks) (k : String) : Option Block :=
  (bs.find? (fun b => b.1 = k)).map Prod.snd

/-- Python truthiness of an optional string (`if self.solvent:`). -/
def pyTruthy (o : Option String) : Bool :=
  match o with
  | some s => s ≠ ""
  | none => false

/-- Python `f"{x}"` on an optional string: `None` renders as `"None"`. -/
def optStr (o : Option String) : String := o.getD "None"

/-- The `OrcaJobInfo` helper class (lines 21-109), restricted to the
attributes `write_input` and the enumerated-option setters read or write.
The four `Option String` level fields are the private attributes behind
the `print_level` / `optimization_level` / `scf_convergence_level` /
`scf_convergence_strategy` properties. -/
structure OrcaJobInfo where
  ncores : Nat := 1
  maxcore : Nat := 750
  is_singlet : Bool := true
  solvent : Option String := none
  opt : Bool := false
  opt_ts : Bool := false
  freq : Bool := false
  nfreq : Bool := false
  scan : Option String := none
  scan_ts : Option String := none
  neb_ci : Bool := false
  neb_ts : Bool := false
  constraints : Option String := none
  invert_constraints : Bool := false
  fullscan : Bool := false
  cube_dim : Option Nat := none
  calc_hess : Bool := false
  hirshfeld : Bool := false
  nearir : Bool := false
  raman : Bool := false
  neb_product : Option String := none
  neb_ts_guess : Option String := none
  neb_images : Option Nat := none
  neb_preopt : Bool := false
  user_blocks : Blocks := []
  print_level : Option String := none
  optimization_level : Option String := none
  scf_convergence_level : Option String := none
  scf_convergence_strategy : Option String := none
deriving DecidableEq, Repr

/-- Accepted values of the `print_level` setter (lines 377-382). -/
def PRINT_LEVELS : List String := ["MINIPRINT", "SMALLPRINT", "NORMALPRINT", "LARGEPRINT"]

/-- Accepted values of the `optimization_level` setter (lines 409-414). -/
def OPT_LEVELS : List String := ["VERYTIGHTOPT", "TIGHTOPT", "NORMALOPT", "LOOSEOPT"]

/-- Accepted values of the `scf_convergence_level` setter (lines 441-449). -/
def SCF_LEVELS : List String :=
  ["NORMALSCF", "LOOSESCF", "SLOPPYSCF", "STRONGSCF", "TIGHTSCF", "VERYTIGHTSCF", "EXTREMESCF"]

/-- Accepted values of the `scf_convergence_strategy` setter (lines 476-483). -/
def SCF_STRATEGIES : List String :=
  ["EASYCONV", "NORMALCONV", "SLOWCONV", "VERYSLOWCONV", "FORCECONV", "IGNORECONV"]

/-- The `print_level` property setter (lines 374-391): case-insensitive
validation against the closed vocabulary (`ValueError` otherwise),
canonical uppercase storage, `None` resets the field. -/
def OrcaJobInfo.set_print_level (j : OrcaJobInfo) (value : Option String) :
    Except String OrcaJobInfo :=
  match value with
  | some v =>
    if pyUpper v ∈ PRINT_LEVELS then .ok { j with print_level := some (pyUpper v) }
    else .error "not a valid optimization level"
  | none => .ok { j with print_level := none }

/-- The `optimization_level` property setter (lines 406-423).  Note the
`else` branch of the source (line 423) assigns `self.__print_level = None`,
not `self.__optimization_level = None`. -/
def OrcaJobInfo.set_optimization_level (j : OrcaJobInfo) (value : Option String) :
    Except String OrcaJobInfo :=
  match value with
  | some v =>
    if pyUpper v ∈ OPT_LEVELS then .ok { j with optimization_level := some (pyUpper v) }
    else .error "not a valid optimization level"
  | none => .ok { j with print_level := none }

/-- The `scf_convergence_level` property setter (lines 438-458).  As in the
source, the `else` branch (line 458) assigns `self.__print_level = None`. -/
def OrcaJobInfo.set_scf_convergence_level (j : OrcaJobInfo) (value : Option String) :
    Except String OrcaJobInfo :=
  match value with
  | some v =>
    if pyUpper v ∈ SCF_LEVELS then .ok { j with scf_convergence_level := some (pyUpper v) }
    else .error "not a valid SCF convergence level"
  | none => .ok { j with print_level := none }

/-- The `scf_convergence_strategy` property setter (lines 473-492).  As in
the source, the `else` branch (line 492) assigns `self.__print_level = None`. -/
def OrcaJobInfo.set_scf_convergence_strategy (j : OrcaJobInfo) (value : Option String) :
    Except String OrcaJobInfo :=
  match value with
  | some v =>
    if pyUpper v ∈ SCF_STRATEGIES then .ok { j with scf_convergence_strategy := some (pyUpper v) }
    else .error "not a valid convergence strategy"
  | none => .ok { j with print_level := none }

/-- `OrcaJobInfo.geom_block` (lines 128-159). -/
def OrcaJobInfo.geom_block (j : OrcaJobInfo) : Block :=
  let block := (dictGet j.user_blocks "geom").getD []
  let block := if j.calc_hess then dictSet block "calc_hess" (.prim "true") else block
  let block := if j.fullscan then dictSet block "fullscan" (.prim "true") else block
  let block := match j.scan with
    | some s => dictSet block "scan" (.prim (s ++ "  end"))
    | none => block
  let block := match j.scan_ts with
    | some s => dictSet block "scan" (.prim (s ++ "  end"))
    | none => block
  let block := match j.constraints with
    | some c => dictSet block "constraints" (.prim ("\x7b " ++ c ++ " C \x7d  end"))
    | none => block
  if j.invert_constraints then dictSet block "invertconstraints" (.prim "true") else block

/-- `OrcaJobInfo.cpcm_block` (lines 162-179). -/
def OrcaJobInfo.cpcm_block (j : OrcaJobInfo) : Block :=
  let block := (dictGet j.user_blocks "cpcm").getD []
  if pyTruthy j.solvent then
    dictSet (dictSet block "smd" (.prim "true")) "smdsolvent"
      (.prim ("\"" ++ optStr j.solvent ++ "\""))
  else block

/-- `OrcaJobInfo.cosmors_block` (lines 182-195). -/
def OrcaJobInfo.cosmors_block (j : OrcaJobInfo) : Block :=
  (dictGet j.user_blocks "cosmors").getD []

/-- `OrcaJobInfo.plots_block` (lines 198-221). -/
def OrcaJobInfo.plots_block (j : OrcaJobInfo) : Block :=
  let block := (dictGet j.user_blocks "plots").getD []
  match j.cube_dim with
  | none => block
  | some d =>
    let block := dictSet block "format" (.prim "gaussian_cube")
    let block := dictSet block "dim1" (.prim (toString d))
    let block := dictSet block "dim2" (.prim (toString d))
    let block := dictSet block "dim3" (.prim (toString d))
    let block := dictSet block "eldens(\"eldens.cube\");" (.prim "")
    if j.is_singlet = false then dictSet block "spindens(\"spindens.cube\");" (.prim "")
    else block

/-- `OrcaJobInfo.output_block` (lines 223-239). -/
def OrcaJobInfo.output_block (j : OrcaJobInfo) : Block :=
  let block := (dictGet j.user_blocks "output").getD []
  if j.hirshfeld then dictSet block "print[p_hirshfeld]" (.prim "1") else block

/-- `OrcaJobInfo.elprop_block` (lines 242-259). -/
def OrcaJobInfo.elprop_block (j : OrcaJobInfo) : Block :=
  let block := (dictGet j.user_blocks "elprop").getD []
  if j.raman then dictSet block "polar" (.prim "1") else block

/-- `OrcaJobInfo.neb_block` (lines 261-288). -/
def OrcaJobInfo.neb_block (j : OrcaJobInfo) : Block :=
  let block := (dictGet j.user_blocks "neb").getD []
  if j.neb_ci ∨ j.neb_ts then
    let block := dictSet block "product" (.prim ("\"" ++ optStr j.neb_product ++ "\""))
    let block := match j.neb_ts_guess with
      | some g => dictSet block "ts" (.prim ("\"" ++ g ++ "\""))
      | none => block
    let block := match j.neb_images with
      | some n => dictSet block "nimages" (.prim (toString n))
      | none => block
    if j.neb_preopt then dictSet block "preopt" (.prim "true") else block
  else block

/-- `OrcaJobInfo.parsed_blocks` (lines 290-326): the six library blocks (in
source order, when non-empty) followed by the remaining user blocks. -/
def OrcaJobInfo.parsed_blocks (j : OrcaJobInfo) : Blocks :=
  let add (bs : Blocks) (name : String) (b : Block) : Blocks :=
    if b ≠ [] then bs ++ [(name, b)] else bs
  let bs := add [] "geom" j.geom_block
  let bs := add bs "cpcm" j.cpcm_block
  let bs := add bs "plots" j.plots_block
  let bs := add bs "output" j.output_block
  let bs := add bs "elprop" j.elprop_block
  let bs := add bs "neb" j.neb_block
  bs ++ j.user_blocks.filter
    (fun kv => kv.1 ∉ ["geom", "cpcm", "plots", "output", "elprop", "neb"])

/-! ## OrcaInput.write_input (orca.py lines 551-657) -/

/-- The engine-level configuration of an `OrcaInput` instance
(constructor, lines 525-549) as read by `write_input`. -/
structure OrcaEngine where
  method : String := "PBE"
  basis_set : String := "def2-TZVP"
  aux_basis : String := "def2/J"
  solvent : Option String := none
  optionals : String := ""
deriving DecidableEq, Repr

/-- The warning of the automatic analytical → numerical frequency
downgrade (line 599). -/
def downgradeWarning : String :=
  "Optimization with frequency in solvent was requested. Switching to numerical frequencies."

/-- The condition of the downgrade (line 598):
`(job_info.opt is True or job_info.opt_ts is True) and job_info.freq is True and self.solvent is not None`. -/
def downgradeCond (eng : OrcaEngine) (j : OrcaJobInfo) : Bool :=
  (j.opt || j.opt_ts) && j.freq && eng.solvent.isSome

/-- The initial resource piece of the input (lines 570-575): a single
string assembled from adjacent literals and f-strings. -/
def headerPiece (j : OrcaJobInfo) : String :=
  "%pal\n" ++ "  nprocs " ++ toString j.ncores ++ "\n" ++ "end\n\n" ++
    "%maxcore " ++ toString j.maxcore ++ "\n\n"

/-- The method/basis pieces (lines 577-581), emitted only when no
`%cosmors` block is present. -/
def methodPieces (eng : OrcaEngine) (j : OrcaJobInfo) : List String :=
  if j.cosmors_block = [] then
    ["! " ++ eng.method ++ " " ++ eng.basis_set ++ " " ++ eng.optionals ++ "\n"] ++
      (if eng.aux_basis ≠ "" then ["! RIJCOSX " ++ eng.aux_basis ++ "\n\n"] else [])
  else []

/-- The SCF convergence pieces (lines 583-593): each `input +=` of the
source is one list element. -/
def scfPieces (j : OrcaJobInfo) : List String :=
  if j.scf_convergence_strategy ≠ none ∨ j.scf_convergence_level ≠ none then
    ["! "] ++
      (match j.scf_convergence_level with | some s => [s, " "] | none => []) ++
      (match j.scf_convergence_strategy with | some s => [s, " "] | none => []) ++
      ["\n"]
  else []

/-- The print-level piece (lines 595-596). -/
def printPieces (j : OrcaJobInfo) : List String :=
  match j.print_level with
  | some s => ["! " ++ s ++ "\n\n"]
  | none => []

/-- The calculation-type directives (lines 603-633), evaluated on the
(possibly downgraded) job info. -/
def directivePieces (j : OrcaJobInfo) : List String :=
  (if j.opt then
      [match j.optimization_level with
       | none => "! Opt\n"
       | some lv => "! " ++ lv ++ "\n"]
    else []) ++
  (if j.scan ≠ none then ["! Opt\n"] else []) ++
  (if j.opt_ts then ["! OptTS\n"] else []) ++
  (if j.scan_ts ≠ none then ["! ScanTS\n"] else []) ++
  (if j.freq then ["! Freq\n"] else []) ++
  (if j.nfreq then ["! NumFreq\n"] else []) ++
  (if j.nearir then ["! NearIR\n"] else []) ++
  (if j.neb_ci then ["! NEB-CI\n"] else []) ++
  (if j.neb_ts then ["! NEB-TS\n"] else []) ++
  ["\n"]

/-- Rendering of one block entry (lines 641-648). -/
def renderEntry (key : String) (v : BlockVal) : List String :=
  match v with
  | .table kv =>
    ["  " ++ key ++ "\n"] ++
      kv.map (fun p => "    " ++ p.1 ++ " " ++ p.2 ++ "\n") ++ ["  end\n"]
  | .prim s => ["  " ++ key ++ " " ++ s ++ "\n"]

/-- Rendering of one `%`-block (lines 637-650). -/
def renderBlock (name : String) (b : Block) : List String :=
  ["%" ++ name ++ "\n"] ++ b.flatMap (fun kv => renderEntry kv.1 kv.2) ++ ["end\n\n"]

/-- Rendering of all parsed blocks (lines 635-650). -/
def renderBlocks (bs : Blocks) : List String :=
  bs.flatMap (fun nb => renderBlock nb.1 nb.2)

/-- The advisory warnings emitted by `write_input` (lines 599 and 617), in
emission order; `j'` is the job info after the downgrade. -/
def writeWarnings (eng : OrcaEngine) (j j' : OrcaJobInfo) : List String :=
  (if downgradeCond eng j then [downgradeWarning] else []) ++
    (if j'.freq && pyTruthy eng.solvent then
      ["Analytical frequencies are not supported for the SMD solvent model."]
    else [])

/-- `OrcaInput.write_input(mol, job_info)` (lines 551-657).  The result is
the list of strings appended to `input` (one per `input +=` of the source,
in order; their concatenation is the written `input.inp`), the list of
emitted warnings, and the job info after the in-place
analytical → numerical frequency downgrade. -/
def write_input (eng : OrcaEngine) (j : OrcaJobInfo) (charge spin : Int)
    (name : String) : List String × List String × OrcaJobInfo :=
  let j' := if downgradeCond eng j then { j with freq := false, nfreq := true } else j
  let pieces :=
    [headerPiece j] ++ methodPieces eng j ++ scfPieces j ++ printPieces j ++
      directivePieces j' ++ renderBlocks j'.parsed_blocks ++
      ["* xyzfile " ++ toString charge ++ " " ++ toString spin ++ " " ++ name ++ ".xyz\n\n"]
  (pieces, writeWarnings eng j j', j')

/-! ## Infrastructure lemmas -/

/-- Absolute value on `ℚ` as a conditional (used to evaluate the
`np.isclose` test on concrete rationals). -/
theorem abs_ratDef (q : ℚ) : |q| = if 0 ≤ q then q else -q := by
  split
  · exact abs_of_nonneg (by assumption)
  · exact abs_of_neg (lt_of_not_ge (by assumption))

/-- Errors of the `fspeStep` branch are runtime conversion errors. -/
theorem fspeStep_error_mem (p : PropertySet) (l : String) (e : PyError)
    (p' : PropertySet) (h : fspeStep p l = .error (e, p')) :
    e ≠ .missingOutputFile ∧ e ≠ .abnormalTermination := by
  unfold fspeStep at h
  repeat' split at h
  all_goals try exact Except.noConfusion h
  all_goals
    (simp only [Except.error.injEq, Prod.mk.injEq] at h
     obtain ⟨h1, h2⟩ := h
     subst h1
     exact ⟨by simp, by simp⟩)

/-- Errors of the `geStep` branch are runtime conversion errors. -/
theorem geStep_error_mem (p : PropertySet) (l : String) (e : PyError)
    (p' : PropertySet) (h : geStep p l = .error (e, p')) :
    e ≠ .missingOutputFile ∧ e ≠ .abnormalTermination := by
  unfold geStep at h
  repeat' split at h
  all_goals try exact Except.noConfusion h
  all_goals
    (simp only [Except.error.injEq, Prod.mk.injEq] at h
     obtain ⟨h1, h2⟩ := h
     subst h1
     exact ⟨by simp, by simp⟩)

/-- Errors of the `gibbsStep` branch are runtime conversion errors. -/
theorem gibbsStep_error_mem (p : PropertySet) (g : Option ℚ) (l : String)
    (e : PyError) (p' : PropertySet) (h : gibbsStep p g l = .error (e, p')) :
    e ≠ .missingOutputFile ∧ e ≠ .abnormalTermination := by
  unfold gibbsStep at h
  repeat' split at h
  all_goals try exact Except.noConfusion h
  all_goals
    (simp only [Except.error.injEq, Prod.mk.injEq] at h
     obtain ⟨h1, h2⟩ := h
     subst h1
     exact ⟨by simp, by simp⟩)

/-- Errors of one energy-scan iteration are runtime conversion errors. -/
theorem energyLine_error_mem (p : PropertySet) (g : Option ℚ) (l : String)
    (e : PyError) (p' : PropertySet) (h : energyLine p g l = .error (e, p')) :
    e ≠ .missingOutputFile ∧ e ≠ .abnormalTermination := by
  unfold energyLine at h
  split at h
  · rename_i ep heq
    obtain h1 : ep = (e, p') := by simpa using h
    subst h1
    exact fspeStep_error_mem _ _ _ _ heq
  · split at h
    · rename_i ep heq
      obtain h1 : ep = (e, p') := by simpa using h
      subst h1
      exact geStep_error_mem _ _ _ _ heq
    · exact gibbsStep_error_mem _ _ _ _ _ h

/-- Errors of the energy loop are runtime conversion errors. -/
theorem energyLoop_error_mem :
    ∀ (ls : List String) (p : PropertySet) (g : Option ℚ) (e : PyError)
      (p' : PropertySet), energyLoop ls p g = .error (e, p') →
      e ≠ .missingOutputFile ∧ e ≠ .abnormalTermination := by
  intro ls
  induction ls with
  | nil => intro p g e p' h; simp [energyLoop] at h
  | cons l ls ih =>
    intro p g e p' h
    rw [energyLoop] at h
    split at h
    · rename_i ep heq
      obtain h1 : ep = (e, p') := by simpa using h
      subst h1
      exact energyLine_error_mem _ _ _ _ _ heq
    · exact ih _ _ _ _ h

/-- Errors of the energy stage are conversion errors or the two Gibbs
consistency `RuntimeError`s, never the pre-scan ones. -/
theorem energyStage_error_mem (lines : List String) (p p' : PropertySet)
    (e : PyError) (h : energyStage lines p = (p', some e)) :
    e ≠ .missingOutputFile ∧ e ≠ .abnormalTermination := by
  unfold energyStage at h
  split at h
  · rename_i e0 p0 heq
    obtain ⟨h1, h2⟩ : p0 = p' ∧ e0 = e := by simpa using h
    subst h1
    subst h2
    exact energyLoop_error_mem _ _ _ _ _ heq
  · repeat' split at h
    all_goals first
      | (obtain ⟨h1, h2⟩ : _ ∧ _ = e := by simpa using h
         subst h2
         exact ⟨by simp, by simp⟩)
      | simp at h

/-- The Mulliken stage only writes the two Mulliken fields. -/
theorem mullikenStage_energy_fields (lines : List String) (p : PropertySet) :
    (mullikenStage lines p).1.electronic_energy = p.electronic_energy ∧
    (mullikenStage lines p).1.free_energy_correction = p.free_energy_correction := by
  unfold mullikenStage
  repeat' split
  all_goals exact ⟨rfl, rfl⟩

/-- The Hirshfeld stage only writes the two Hirshfeld fields. -/
theorem hirshfeldStage_energy_fields (lines : List String) (p : PropertySet) :
    (hirshfeldStage lines p).1.electronic_energy = p.electronic_energy ∧
    (hirshfeldStage lines p).1.free_energy_correction = p.free_energy_correction := by
  unfold hirshfeldStage
  repeat' split
  all_goals exact ⟨rfl, rfl⟩

/-- The vibrational stage only writes the vibrational-data field. -/
theorem vibStage_energy_fields (lines : List String) (n : Nat) (p : PropertySet) :
    (vibStage lines n p).1.electronic_energy = p.electronic_energy ∧
    (vibStage lines n p).1.free_energy_correction = p.free_energy_correction := by
  unfold vibStage
  repeat' split
  all_goals exact ⟨rfl, rfl⟩

/-! ### Specification of the energy scan (for the last-match-wins claim) -/

/-- `"FINAL SINGLE POINT ENERGY" in line`. -/
def fspeP (l : String) : Bool := pyContains l "FINAL SINGLE POINT ENERGY"

/-- `"G-E(el)" in line`. -/
def geP (l : String) : Bool := pyContains l "G-E(el)"

/-- `"Final Gibbs free energy" in line`. -/
def gibbsP (l : String) : Bool := pyContains l "Final Gibbs free energy"

/-- `float(line.split()[-1])` as an optional value. -/
def lineLastTokVal (l : String) : Option ℚ :=
  ((pySplitWs l).getLast?).bind parseFloat?

/-- `float(line.split()[-4])` as an optional value. -/
def lineTok4Val (l : String) : Option ℚ :=
  (pyNegIdx (pySplitWs l) 4).bind parseFloat?

/-- `float(line.split()[-2])` as an optional value. -/
def lineTok2Val (l : String) : Option ℚ :=
  (pyNegIdx (pySplitWs l) 2).bind parseFloat?

/-- On success, the FSPE branch overwrites the electronic energy with the
line's last-token value (and touches nothing else). -/
theorem fspeStep_spec (p p₁ : PropertySet) (l : String)
    (h : fspeStep p l = .ok p₁) :
    p₁.electronic_energy = (if fspeP l then lineLastTokVal l else p.electronic_energy) ∧
    p₁.free_energy_correction = p.free_energy_correction := by
  unfold fspeStep at h
  repeat' split at h
  all_goals try exact Except.noConfusion h
  all_goals
    (injection h with h
     subst h
     simp_all [fspeP, lineLastTokVal])

/-- On success, the G-E(el) branch overwrites the free-energy correction
with the line's fourth-from-last-token value. -/
theorem geStep_spec (p p₁ : PropertySet) (l : String)
    (h : geStep p l = .ok p₁) :
    p₁.free_energy_correction = (if geP l then lineTok4Val l else p.free_energy_correction) ∧
    p₁.electronic_energy = p.electronic_energy := by
  unfold geStep at h
  repeat' split at h
  all_goals try exact Except.noConfusion h
  all_goals
    (injection h with h
     subst h
     simp_all [geP, lineTok4Val])

/-- On success, the Gibbs branch overwrites the local Gibbs variable with
the line's second-from-last-token value and leaves the properties alone. -/
theorem gibbsStep_spec (p : PropertySet) (g : Option ℚ) (l : String)
    (p' : PropertySet) (g' : Option ℚ) (h : gibbsStep p g l = .ok (p', g')) :
    p' = p ∧ g' = (if gibbsP l then lineTok2Val l else g) := by
  unfold gibbsStep at h
  repeat' split at h
  all_goals try exact Except.noConfusion h
  all_goals
    (obtain ⟨h1, h2⟩ : p = p' ∧ _ = g' := by simpa using h
     subst h1
     subst h2
     simp_all [gibbsP, lineTok2Val])

/-- Combined specification of one energy-scan iteration. -/
theorem energyLine_spec (p : PropertySet) (g : Option ℚ) (l : String)
    (p' : PropertySet) (g' : Option ℚ) (h : energyLine p g l = .ok (p', g')) :
    p'.electronic_energy = (if fspeP l then lineLastTokVal l else p.electronic_energy) ∧
    p'.free_energy_correction = (if geP l then lineTok4Val l else p.free_energy_correction) ∧
    g' = (if gibbsP l then lineTok2Val l else g) := by
  unfold energyLine at h
  split at h
  · exact Except.noConfusion h
  · rename_i p₁ heq1
    split at h
    · exact Except.noConfusion h
    · rename_i p₂ heq2
      obtain ⟨hg1, hg2⟩ := gibbsStep_spec _ _ _ _ _ h
      obtain ⟨hf1, hf2⟩ := fspeStep_spec _ _ _ heq1
      obtain ⟨he1, he2⟩ := geStep_spec _ _ _ heq2
      subst hg1
      exact ⟨by rw [he2, hf1], by rw [he1, hf2], hg2⟩

/-- Folding a `getLast?` elimination through a `cons`. -/
theorem elim_getLast?_cons {α β : Type} (a : α) (xs : List α) (f : α → β) (d : β) :
    ((a :: xs).getLast?).elim d f = (xs.getLast?).elim (f a) f := by
  cases xs with
  | nil => simp
  | cons b ys =>
    rw [List.getLast?_cons_cons]
    cases h : (b :: ys).getLast? with
    | none => exact absurd (List.getLast?_eq_none_iff.mp h) (by simp)
    | some m => rfl

/-- Specification of the whole energy loop: on success, each of the three
scalars equals the value extracted from the *last* matching line of the
log (or the initial value when no line matches). -/
theorem energyLoop_spec :
    ∀ (ls : List String) (p : PropertySet) (g : Option ℚ) (p' : PropertySet)
      (g' : Option ℚ), energyLoop ls p g = .ok (p', g') →
      p'.electronic_energy =
        ((ls.filter (fun l => fspeP l)).getLast?).elim p.electronic_energy lineLastTokVal ∧
      p'.free_energy_correction =
        ((ls.filter (fun l => geP l)).getLast?).elim p.free_energy_correction lineTok4Val ∧
      g' = ((ls.filter (fun l => gibbsP l)).getLast?).elim g lineTok2Val := by
  intro ls
  induction ls with
  | nil =>
    intro p g p' g' h
    obtain ⟨h1, h2⟩ : p = p' ∧ g = g' := by simpa [energyLoop] using h
    subst h1
    subst h2
    exact ⟨rfl, rfl, rfl⟩
  | cons l ls ih =>
    intro p g p' g' h
    rw [energyLoop] at h
    split at h
    · exact Except.noConfusion h
    · rename_i pg heq
      obtain ⟨hs1, hs2, hs3⟩ := energyLine_spec _ _ _ _ _ heq
      obtain ⟨hl1, hl2, hl3⟩ := ih _ _ _ _ h
      refine ⟨?_, ?_, ?_⟩
      · rw [hl1, List.filter_cons]
        by_cases hp : fspeP l
        · simp only [hp, reduceIte]
          rw [elim_getLast?_cons]
          cases (ls.filter (fun l => fspeP l)).getLast? with
          | none => simp [Option.elim, hs1, hp]
          | some m => rfl
        · simp only [hp, Bool.false_eq_true, reduceIte]
          cases (ls.filter (fun l => fspeP l)).getLast? with
          | none => simp [Option.elim, hs1, hp]
          | some m => rfl
      · rw [hl2, List.filter_cons]
        by_cases hp : geP l
        · simp only [hp, reduceIte]
          rw [elim_getLast?_cons]
          cases (ls.filter (fun l => geP l)).getLast? with
          | none => simp [Option.elim, hs2, hp]
          | some m => rfl
        · simp only [hp, Bool.false_eq_true, reduceIte]
          cases (ls.filter (fun l => geP l)).getLast? with
          | none => simp [Option.elim, hs2, hp]
          | some m => rfl
      · rw [hl3, List.filter_cons]
        by_cases hp : gibbsP l
        · simp only [hp, reduceIte]
          rw [elim_getLast?_cons]
          cases (ls.filter (fun l => gibbsP l)).getLast? with
          | none => simp [Option.elim, hs3, hp]
          | some m => rfl
        · simp only [hp, Bool.false_eq_true, reduceIte]
          cases (ls.filter (fun l => gibbsP l)).getLast? with
          | none => simp [Option.elim, hs3, hp]
          | some m => rfl

/-! ### Specification of the Mulliken scanner (for the spin-default claim) -/

/-- The charge value of one Mulliken table row:
`float(buffer.replace(":", "").split()[2])` as an optional value. -/
def mullikenRowVal (r : String) : Option ℚ :=
  ((pySplitWs (pyDropColons r)).get? 2).bind parseFloat?

/-- A zero occurrence count refutes the Python `in` operator. -/
theorem pyContains_eq_false (l sub : String)
    (h : countOcc sub.toList l.toList = 0) : pyContains l sub = false := by
  have h' : countOcc sub.data l.data = 0 := h
  simp [pyContains, String.toList, h']

/-- Lines without the section marker are skipped by the Mulliken loop
while the marker counter is still zero. -/
theorem mullikenLoop_skip (sections : Nat) (hs : sections ≠ 0) :
    ∀ (pre rest : List String) (sa : Bool) (ch sp : List ℚ),
      (∀ l ∈ pre, countOcc mullikenMarker.toList l.toList = 0) →
      mullikenLoop sections (pre ++ rest) 0 sa ch sp =
        mullikenLoop sections rest 0 sa ch sp := by
  intro pre
  induction pre with
  | nil => intro rest sa ch sp _; rfl
  | cons l pre' ih =>
    intro rest sa ch sp hpre
    rw [List.cons_append, mullikenLoop]
    have hc : pyContains l mullikenMarker = false :=
      pyContains_eq_false _ _ (hpre l (by simp))
    simp only [hc, Bool.false_eq_true, reduceIte]
    rw [if_neg (fun hh => hs hh.symm)]
    exact ih rest sa ch sp (fun x hx => hpre x (by simp [hx]))

/-- Reading a well-formed Mulliken table with the spin column absent:
every parsed row contributes its charge and a spin of `0.0`. -/
theorem readMullikenRows_spec :
    ∀ (rows post : List String) (sumLine : String) (ch sp : List ℚ),
      (∀ r ∈ rows, pyContains r "Sum of atomic charges" = false ∧
        (mullikenRowVal r).isSome) →
      pyContains sumLine "Sum of atomic charges" = true →
      readMullikenRows false (rows ++ sumLine :: post) ch sp =
        .ok (ch ++ rows.map (fun r => (mullikenRowVal r).getD 0),
             sp ++ List.replicate rows.length 0, post) := by
  intro rows
  induction rows with
  | nil =>
    intro post sumLine ch sp _ hsum
    rw [List.nil_append, readMullikenRows]
    simp [hsum]
  | cons r rows' ih =>
    intro post sumLine ch sp hrows hsum
    obtain ⟨hr1, hr2⟩ := hrows r (by simp)
    rw [List.cons_append, readMullikenRows]
    simp only [hr1, Bool.false_eq_true, reduceIte]
    obtain ⟨t, ht⟩ : ∃ t, (pySplitWs (pyDropColons r)).get? 2 = some t := by
      cases hg : (pySplitWs (pyDropColons r)).get? 2 with
      | none => rw [mullikenRowVal, hg] at hr2; simp at hr2
      | some t => exact ⟨t, rfl⟩
    obtain ⟨v, hv⟩ : ∃ v, parseFloat? t = some v := by
      cases hp : parseFloat? t with
      | none => rw [mullikenRowVal, ht, Option.some_bind, hp] at hr2; simp at hr2
      | some v => exact ⟨v, rfl⟩
    rw [ht]
    dsimp only
    rw [hv]
    dsimp only
    rw [ih post sumLine (ch ++ [v]) (sp ++ [0])
      (fun x hx => hrows x (by simp [hx])) hsum]
    have hval : (mullikenRowVal r).getD 0 = v := by
      rw [mullikenRowVal, ht, Option.some_bind, hv]
      rfl
    simp [hval, List.append_assoc, List.replicate_succ]

/-! ### Specification of the normal-mode reader (for the block-tiling claim)

A well-formed `NORMAL MODES` table for `ncoords` coordinates prints the
`ncoords` mode columns in blocks of at most 6: each block is a header line
followed by `ncoords` rows, each row holding a leading row index and one
entry per column of the block.  The definitions below *render* such a table
from its columns, so that the round-trip through the reader states exactly
"the scanner accumulates the column vectors across blocks in reading
order". -/

/-- A string usable as one whitespace-separated token: non-empty and free
of whitespace. -/
def goodTok (s : String) : Bool :=
  s ≠ "" && s.toList.all (fun c => !(isPyWs c))

/-- Join tokens with single spaces (the renderer of one table row). -/
def joinTokens : List String → String
  | [] => ""
  | [t] => t
  | t :: ts => t ++ " " ++ joinTokens ts

/-- A single whitespace-free run tokenises to itself. -/
theorem wsTokens_single :
    ∀ (t : List Char), t ≠ [] → (∀ c ∈ t, isPyWs c = false) →
      wsTokens t = [t] := by
  intro t
  induction t with
  | nil => intro h _; exact absurd rfl h
  | cons c t' ih =>
    intro _ hws
    cases t' with
    | nil => simp [wsTokens, hws c (by simp)]
    | cons d cs =>
      rw [wsTokens]
      rw [if_neg (by simp [hws c (by simp)])]
      rw [if_neg (by simp [hws d (by simp)])]
      rw [ih (by simp) (fun x hx => hws x (by simp [hx]))]

/-- A whitespace-free token followed by a space splits off as one token. -/
theorem wsTokens_sep :
    ∀ (t : List Char), t ≠ [] → (∀ c ∈ t, isPyWs c = false) →
      ∀ (rest : List Char), wsTokens (t ++ ' ' :: rest) = t :: wsTokens rest := by
  intro t
  induction t with
  | nil => intro h _; exact absurd rfl h
  | cons c t' ih =>
    intro _ hws rest
    cases t' with
    | nil =>
      rw [List.cons_append, List.nil_append, wsTokens]
      rw [if_neg (by simp [hws c (by simp)])]
      rw [if_pos (by simp [isPyWs])]
    | cons d cs =>
      have hshape : (c :: d :: cs) ++ ' ' :: rest = c :: d :: (cs ++ ' ' :: rest) := by
        simp
      rw [hshape, wsTokens]
      rw [if_neg (by simp [hws c (by simp)])]
      rw [if_neg (by simp [hws d (by simp)])]
      have ihr := ih (by simp) (fun x hx => hws x (by simp [hx])) rest
      rw [List.cons_append] at ihr
      rw [ihr]

/-- `str.split()` recovers the tokens of a space-joined row. -/
theorem pySplitWs_joinTokens :
    ∀ (ts : List String), (∀ t ∈ ts, goodTok t = true) →
      pySplitWs (joinTokens ts) = ts := by
  intro ts
  induction ts with
  | nil => intro _; rfl
  | cons t ts' ih =>
    intro hgood
    obtain ⟨ht1, ht2⟩ : t ≠ "" ∧ ∀ c ∈ t.toList, isPyWs c = false := by
      have := hgood t (by simp)
      simp [goodTok] at this
      exact ⟨this.1, this.2⟩
    have htl : t.toList ≠ [] := by
      intro hc
      apply ht1
      cases t with
      | mk d =>
        have hd : d = [] := hc
        subst hd
        rfl
    cases ts' with
    | nil =>
      show pySplitWs (joinTokens [t]) = [t]
      rw [joinTokens]
      rw [pySplitWs, wsTokens_single t.toList htl ht2]
      simp [String.toList]
    | cons u us =>
      rw [joinTokens]
      rw [pySplitWs]
      have hdata : (t ++ " " ++ joinTokens (u :: us)).toList =
          t.toList ++ ' ' :: (joinTokens (u :: us)).toList := by
        simp [String.toList, String.data_append]
      rw [hdata, wsTokens_sep t.toList htl ht2]
      rw [List.map_cons]
      have : String.mk t.toList = t := rfl
      rw [this]
      have := ih (fun x hx => hgood x (by simp [hx]))
      rw [pySplitWs] at this
      rw [this]
      simp

/-- The row-wise accumulation step: append each token's value to its
column buffer. -/
def zipApp (bufs : List (List ℚ)) (ts : List String) : List (List ℚ) :=
  List.zipWith (fun b t => b ++ [(parseFloat? t).getD 0]) bufs ts

/-- `appendRowToks` succeeds on a row with exactly one token per buffer. -/
theorem appendRowToks_ok :
    ∀ (bufs : List (List ℚ)) (ts : List String),
      ts.length = bufs.length → (∀ t ∈ ts, (parseFloat? t).isSome) →
      appendRowToks bufs ts = .ok (zipApp bufs ts) := by
  intro bufs
  induction bufs with
  | nil =>
    intro ts hlen _
    cases ts with
    | nil => rfl
    | cons t ts' => simp at hlen
  | cons b bs ih =>
    intro ts hlen hparse
    cases ts with
    | nil => simp at hlen
    | cons t ts' =>
      rw [appendRowToks]
      obtain ⟨v, hv⟩ : ∃ v, parseFloat? t = some v :=
        Option.isSome_iff_exists.mp (hparse t (by simp))
      rw [hv]
      rw [ih ts' (by simpa using hlen) (fun x hx => hparse x (by simp [hx]))]
      simp [zipApp, hv]

/-- Reading `rowsT.length` rendered rows accumulates them into the column
buffers and leaves the remainder untouched. -/
theorem readModeRows_spec :
    ∀ (rowsT : List (List String)) (bufs : List (List ℚ)) (rest : List String),
      (∀ ts ∈ rowsT, ts.length = bufs.length ∧
        ∀ t ∈ ts, (parseFloat? t).isSome ∧ goodTok t = true) →
      readModeRows rowsT.length bufs
          (rowsT.map (fun ts => joinTokens ("0" :: ts)) ++ rest) =
        .ok (rowsT.foldl zipApp bufs, rest) := by
  intro rowsT
  induction rowsT with
  | nil => intro bufs rest _; rfl
  | cons ts rowsT' ih =>
    intro bufs rest hrows
    obtain ⟨hlen, htoks⟩ := hrows ts (by simp)
    rw [List.length_cons, List.map_cons, List.cons_append, readModeRows]
    have hsplit : pySplitWs (joinTokens ("0" :: ts)) = "0" :: ts := by
      apply pySplitWs_joinTokens
      intro x hx
      rcases List.mem_cons.mp hx with h | h
      · subst h; rfl
      · exact (htoks x h).2
    rw [hsplit]
    rw [show ("0" :: ts).tail = ts from rfl]
    rw [appendRowToks_ok bufs ts hlen (fun t ht => (htoks t ht).1)]
    have hzlen : (zipApp bufs ts).length = bufs.length := by
      simp [zipApp, hlen]
    show readModeRows rowsT'.length (zipApp bufs ts)
        (rowsT'.map (fun ts => joinTokens ("0" :: ts)) ++ rest) =
      .ok ((ts :: rowsT').foldl zipApp bufs, rest)
    rw [ih (zipApp bufs ts) rest
      (fun ts' hts' => by
        obtain ⟨h1, h2⟩ := hrows ts' (by simp [hts'])
        exact ⟨by rw [h1, hzlen], h2⟩)]
    rfl

/-- Transpose a column matrix into `n` rows (row `r` holds entry `r` of
each column). -/
def rowsOfAux : List (List String) → Nat → List (List String)
  | _, 0 => []
  | cols, k + 1 =>
    cols.map (fun c => c.headD "") :: rowsOfAux (cols.map List.tail) k

/-- The transpose has exactly `n` rows. -/
theorem rowsOfAux_length :
    ∀ (n : Nat) (cols : List (List String)), (rowsOfAux cols n).length = n := by
  intro n
  induction n with
  | zero => intro cols; rfl
  | succ k ih => intro cols; simp [rowsOfAux, ih]

/-- Every transposed row has one entry per column. -/
theorem rowsOfAux_row_length :
    ∀ (n : Nat) (cols : List (List String)) (ts : List (List String) → Prop),
      ∀ row ∈ rowsOfAux cols n, row.length = cols.length := by
  intro n
  induction n with
  | zero => intro cols _ row hrow; simp [rowsOfAux] at hrow
  | succ k ih =>
    intro cols _ row hrow
    rcases List.mem_cons.mp hrow with h | h
    · subst h; simp
    · rw [ih (cols.map List.tail) (fun _ => True) row h]
      simp

/-- Every token of the transpose of an `n`-rectangular matrix belongs to
one of its columns. -/
theorem rowsOfAux_mem :
    ∀ (n : Nat) (cols : List (List String)),
      (∀ col ∈ cols, col.length = n) →
      ∀ row ∈ rowsOfAux cols n, ∀ t ∈ row, ∃ col ∈ cols, t ∈ col := by
  intro n
  induction n with
  | zero => intro cols _ row hrow; simp [rowsOfAux] at hrow
  | succ k ih =>
    intro cols hcols row hrow t ht
    rcases List.mem_cons.mp hrow with h | h
    · subst h
      obtain ⟨col, hcol, hhead⟩ := List.mem_map.mp ht
      refine ⟨col, hcol, ?_⟩
      cases col with
      | nil => exact absurd (hcols [] hcol) (by simp)
      | cons x xs => subst hhead; simp
    · obtain ⟨col', hcol', ht'⟩ :=
        ih (cols.map List.tail)
          (fun c hc => by
            obtain ⟨col, hcol, rfl⟩ := List.mem_map.mp hc
            have := hcols col hcol
            simp [this])
          row h t ht
      obtain ⟨col, hcol, rfl⟩ := List.mem_map.mp hcol'
      exact ⟨col, hcol, List.mem_of_mem_tail ht'⟩

/-- Appending nothing column-wise is the identity. -/
theorem zipWith_append_nil :
    ∀ (bufs : List (List ℚ)) (cols : List (List String)),
      bufs.length = cols.length → (∀ col ∈ cols, col = []) →
      List.zipWith (fun b col =>
        b ++ col.map (fun t => (parseFloat? t).getD 0)) bufs cols = bufs := by
  intro bufs
  induction bufs with
  | nil => intro cols _ _; rfl
  | cons b bs ih =>
    intro cols hlen hnil
    cases cols with
    | nil => simp at hlen
    | cons c cr =>
      rw [List.zipWith_cons_cons, hnil c (by simp)]
      rw [ih cr (by simpa using hlen) (fun x hx => hnil x (by simp [hx]))]
      simp

/-- Fusing one head-append step with the tail processing. -/
theorem zipWith_fuse :
    ∀ (bufs : List (List ℚ)) (cols : List (List String)),
      bufs.length = cols.length → (∀ col ∈ cols, col ≠ []) →
      List.zipWith (fun b col => b ++ col.map (fun t => (parseFloat? t).getD 0))
        (List.zipWith (fun b t => b ++ [(parseFloat? t).getD 0]) bufs
          (cols.map (fun c => c.headD "")))
        (cols.map List.tail) =
      List.zipWith (fun b col => b ++ col.map (fun t => (parseFloat? t).getD 0))
        bufs cols := by
  intro bufs
  induction bufs with
  | nil => intro cols _ _; rfl
  | cons b bs ih =>
    intro cols hlen hne
    cases cols with
    | nil => rfl
    | cons c cr =>
      cases c with
      | nil => exact absurd rfl (hne [] (by simp))
      | cons x xs =>
        simp only [List.map_cons, List.zipWith_cons_cons]
        rw [ih cr (by simpa using hlen) (fun y hy => hne y (by simp [hy]))]
        simp [List.append_assoc]

/-- Folding the transposed rows into the buffers yields exactly the
columns (in order), each appended to its buffer. -/
theorem foldl_zipApp_rowsOf :
    ∀ (n : Nat) (cols : List (List String)) (bufs : List (List ℚ)),
      bufs.length = cols.length → (∀ col ∈ cols, col.length = n) →
      (rowsOfAux cols n).foldl zipApp bufs =
        List.zipWith (fun b col =>
          b ++ col.map (fun t => (parseFloat? t).getD 0)) bufs cols := by
  intro n
  induction n with
  | zero =>
    intro cols bufs hlen hcols
    rw [rowsOfAux, List.foldl_nil]
    exact (zipWith_append_nil bufs cols hlen
      (fun col hcol => List.length_eq_zero.mp (hcols col hcol))).symm
  | succ k ih =>
    intro cols bufs hlen hcols
    rw [rowsOfAux, List.foldl_cons]
    rw [ih (cols.map List.tail) (zipApp bufs (cols.map (fun c => c.headD "")))
      (by simp [zipApp, hlen])
      (fun c hc => by
        obtain ⟨col, hcol, rfl⟩ := List.mem_map.mp hc
        have := hcols col hcol
        simp [this])]
    rw [zipApp]
    exact zipWith_fuse bufs cols hlen
      (fun col hcol => by
        have := hcols col hcol
        intro hc
        rw [hc] at this
        simp at this)

/-- Render a whole well-formed `NORMAL MODES` table from its columns:
blocks of at most 6 columns, each a header line followed by the `ncoords`
transposed rows. -/
def mkModeSection (ncoords : Nat) : List (List String) → List String
  | [] => []
  | c :: cr =>
    "                  0          1          2" ::
      ((rowsOfAux ((c :: cr).take 6) ncoords).map
          (fun ts => joinTokens ("0" :: ts)) ++
        mkModeSection ncoords ((c :: cr).drop 6))
termination_by cols => cols.length
decreasing_by
  simp only [List.length_drop, List.length_cons]
  omega

/-- `zipWith` against buffers that start empty returns just the columns. -/
theorem zipWith_replicate_nil :
    ∀ (cols : List (List String)) (k : Nat), cols.length = k →
      List.zipWith (fun b col =>
          b ++ col.map (fun t => (parseFloat? t).getD 0))
        (List.replicate k ([] : List ℚ)) cols =
      cols.map (List.map (fun t => (parseFloat? t).getD 0)) := by
  intro cols
  induction cols with
  | nil => intro k _; simp
  | cons c cr ih =>
    intro k hk
    cases k with
    | zero => simp at hk
    | succ k' =>
      rw [List.replicate_succ, List.zipWith_cons_cons, List.map_cons]
      rw [ih k' (by simpa using hk)]
      simp

/-- Round trip of the block-tiled reader over a rendered table: reading
back a section rendered from `cols` returns exactly `cols` (parsed), in
reading order, consuming the whole section. -/
theorem readModeBlocks_roundtrip (ncoords : Nat) :
    ∀ (m : Nat) (b : Nat) (cols : List (List String)) (acc : List (List ℚ)),
      cols.length = m → ncoords - 6 * b = cols.length →
      (∀ col ∈ cols, col.length = ncoords ∧
        ∀ t ∈ col, (parseFloat? t).isSome ∧ goodTok t = true) →
      readModeBlocks ncoords true b acc (mkModeSection ncoords cols) =
        .ok (acc ++ cols.map (List.map (fun t => (parseFloat? t).getD 0)), []) := by
  intro m
  induction m using Nat.strong_induction_on with
  | _ m ih =>
    intro b cols acc hm hleft hcols
    cases cols with
    | nil =>
      rw [mkModeSection, readModeBlocks]
      rw [if_pos (by simpa using hleft)]
      simp
    | cons c cr =>
      have hL : (c :: cr).length = cr.length + 1 := by simp
      rw [mkModeSection, readModeBlocks]
      rw [if_neg (by rw [hleft, hL]; omega)]
      have hncols : (if 6 < ncoords - 6 * b then 6 else ncoords - 6 * b) =
          ((c :: cr).take 6).length := by
        rw [List.length_take, hleft]
        split <;> omega
      rw [hncols]
      dsimp only
      rw [List.drop_succ_cons, List.drop_zero]
      have hrows := readModeRows_spec (rowsOfAux ((c :: cr).take 6) ncoords)
        (List.replicate ((c :: cr).take 6).length [])
        (mkModeSection ncoords ((c :: cr).drop 6))
        (fun ts hts => ⟨by
            rw [rowsOfAux_row_length ncoords ((c :: cr).take 6) (fun _ => True) ts hts]
            simp,
          fun t ht => by
            obtain ⟨col, hcol, htcol⟩ :=
              rowsOfAux_mem ncoords ((c :: cr).take 6)
                (fun col hc => (hcols col (List.mem_of_mem_take hc)).1) ts hts t ht
            exact (hcols col (List.mem_of_mem_take hcol)).2 t htcol⟩)
      rw [rowsOfAux_length] at hrows
      rw [hrows]
      dsimp only
      rw [foldl_zipApp_rowsOf ncoords ((c :: cr).take 6)
        (List.replicate ((c :: cr).take 6).length []) (by simp)
        (fun col hc => (hcols col (List.mem_of_mem_take hc)).1)]
      rw [zipWith_replicate_nil _ _ rfl]
      rw [ih ((c :: cr).drop 6).length
        (by rw [List.length_drop, hL]; omega)
        (b + 1) ((c :: cr).drop 6) _ rfl
        (by rw [List.length_drop]; omega)
        (fun col hc => hcols col (List.mem_of_mem_drop hc))]
      rw [if_pos rfl]
      rw [List.append_assoc, ← List.map_append, List.take_append_drop]

/-! ### Shape lemmas for the rendered input (for the downgrade claim) -/

/-- Strings with different data are different. -/
theorem str_ne_of_data_ne (s t : String) (h : s.data ≠ t.data) : s ≠ t :=
  fun hc => h (by rw [hc])

/-- The resource header piece starts with `%`. -/
theorem headerPiece_ne_freq (j : OrcaJobInfo) : headerPiece j ≠ "! Freq\n" := by
  intro h
  have h2 : (headerPiece j).data.head? = ("! Freq\n").data.head? := by rw [h]
  rw [show (headerPiece j).data.head? = some '%' from rfl] at h2
  rw [show ("! Freq\n").data.head? = some '!' from rfl] at h2
  exact absurd h2 (by decide)

/-- The method line contains at least three spaces, the frequency
directive only one. -/
theorem methodLine_ne_freq (m b o : String) :
    "! " ++ m ++ " " ++ b ++ " " ++ o ++ "\n" ≠ "! Freq\n" := by
  intro h
  have h2 := congrArg (fun s => s.data.count ' ') h
  simp only [String.data_append, List.count_append] at h2
  rw [show ("! ".data.count ' ') = 1 from rfl] at h2
  rw [show (" ".data.count ' ') = 1 from rfl] at h2
  rw [show ("\n".data.count ' ') = 0 from rfl] at h2
  rw [show ("! Freq\n".data.count ' ') = 1 from rfl] at h2
  omega

/-- The auxiliary-basis line differs from the frequency directive at its
third character. -/
theorem auxLine_ne_freq (a : String) : "! RIJCOSX " ++ a ++ "\n\n" ≠ "! Freq\n" := by
  intro h
  have h2 : ("! RIJCOSX " ++ a ++ "\n\n").data.get? 2 = ("! Freq\n").data.get? 2 := by
    rw [h]
  rw [show ("! RIJCOSX " ++ a ++ "\n\n").data.get? 2 = some 'R' from rfl] at h2
  rw [show ("! Freq\n").data.get? 2 = some 'F' from rfl] at h2
  exact absurd h2 (by decide)

/-- No piece of the method group is the frequency directive. -/
theorem methodPieces_ne_freq (eng : OrcaEngine) (j : OrcaJobInfo) :
    ∀ x ∈ methodPieces eng j, x ≠ "! Freq\n" := by
  intro x hx
  unfold methodPieces at hx
  split at hx
  · rcases List.mem_append.mp hx with h | h
    · rw [List.mem_singleton.mp h]
      exact methodLine_ne_freq _ _ _
    · split at h
      · rw [List.mem_singleton.mp h]
        exact auxLine_ne_freq _
      · simp at h
  · simp at hx

/-- No piece of the SCF-convergence group is the frequency directive,
given that the two fields hold validated vocabulary values. -/
theorem scfPieces_ne_freq (j : OrcaJobInfo)
    (hlv : ∀ s, j.scf_convergence_level = some s → s ∈ SCF_LEVELS)
    (hst : ∀ s, j.scf_convergence_strategy = some s → s ∈ SCF_STRATEGIES) :
    ∀ x ∈ scfPieces j, x ≠ "! Freq\n" := by
  have hlv' : ∀ s ∈ SCF_LEVELS, s ≠ "! Freq\n" := by decide
  have hst' : ∀ s ∈ SCF_STRATEGIES, s ≠ "! Freq\n" := by decide
  intro x hx
  unfold scfPieces at hx
  split at hx
  · rcases List.mem_append.mp hx with h | h
    · rcases List.mem_append.mp h with h | h
      · rcases List.mem_append.mp h with h | h
        · rw [List.mem_singleton.mp h]
          decide
        · split at h
          · rcases List.mem_cons.mp h with h | h
            · exact h ▸ hlv' _ (hlv _ (by assumption))
            · rw [List.mem_singleton.mp h]
              decide
          · simp at h
      · split at h
        · rcases List.mem_cons.mp h with h | h
          · exact h ▸ hst' _ (hst _ (by assumption))
          · rw [List.mem_singleton.mp h]
            decide
        · simp at h
    · rw [List.mem_singleton.mp h]
      decide
  · simp at hx

/-- No piece of the print-level group is the frequency directive. -/
theorem printPieces_ne_freq (j : OrcaJobInfo)
    (hpl : ∀ s, j.print_level = some s → s ∈ PRINT_LEVELS) :
    ∀ x ∈ printPieces j, x ≠ "! Freq\n" := by
  have hpl' : ∀ s ∈ PRINT_LEVELS, "! " ++ s ++ "\n\n" ≠ "! Freq\n" := by decide
  intro x hx
  unfold printPieces at hx
  split at hx
  · rw [List.mem_singleton.mp hx]
    exact hpl' _ (hpl _ (by assumption))
  · simp at hx

/-- With the analytical-frequency flag off, no calculation-type directive
is the analytical frequency directive. -/
theorem directivePieces_ne_freq (j : OrcaJobInfo) (hfreq : j.freq = false)
    (hol : ∀ s, j.optimization_level = some s → s ∈ OPT_LEVELS) :
    ∀ x ∈ directivePieces j, x ≠ "! Freq\n" := by
  have hol' : ∀ s ∈ OPT_LEVELS, "! " ++ s ++ "\n" ≠ "! Freq\n" := by decide
  intro x hx
  unfold directivePieces at hx
  rcases List.mem_append.mp hx with h | h
  · rcases List.mem_append.mp h with h | h
    · rcases List.mem_append.mp h with h | h
      · rcases List.mem_append.mp h with h | h
        · rcases List.mem_append.mp h with h | h
          · rcases List.mem_append.mp h with h | h
            · rcases List.mem_append.mp h with h | h
              · rcases List.mem_append.mp h with h | h
                · rcases List.mem_append.mp h with h | h
                  · split at h
                    · rw [List.mem_singleton.mp h]
                      split
                      · decide
                      · exact hol' _ (hol _ (by assumption))
                    · simp at h
                  · split at h
                    · rw [List.mem_singleton.mp h]; decide
                    · simp at h
                · split at h
                  · rw [List.mem_singleton.mp h]; decide
                  · simp at h
              · split at h
                · rw [List.mem_singleton.mp h]; decide
                · simp at h
            · split at h
              · rename_i hft
                simp [hfreq] at hft
              · simp at h
          · split at h
            · rw [List.mem_singleton.mp h]; decide
            · simp at h
        · split at h
          · rw [List.mem_singleton.mp h]; decide
          · simp at h
      · split at h
        · rw [List.mem_singleton.mp h]; decide
        · simp at h
    · split at h
      · rw [List.mem_singleton.mp h]; decide
      · simp at h
  · rw [List.mem_singleton.mp h]; decide

/-- Every rendered block-entry line starts with a space. -/
theorem renderEntry_head (k : String) (v : BlockVal) :
    ∀ x ∈ renderEntry k v, x.data.head? = some ' ' := by
  intro x hx
  cases v with
  | table kv =>
    rcases List.mem_append.mp hx with h | h
    · rcases List.mem_append.mp h with h | h
      · rw [List.mem_singleton.mp h]; rfl
      · obtain ⟨p, _, rfl⟩ := List.mem_map.mp h
        rfl
    · rw [List.mem_singleton.mp h]; rfl
  | prim s =>
    rw [List.mem_singleton.mp hx]
    rfl

/-- Every piece of a rendered block starts with `%`, a space or `e`. -/
theorem renderBlocks_head (bs : Blocks) :
    ∀ x ∈ renderBlocks bs,
      x.data.head? = some '%' ∨ x.data.head? = some ' ' ∨ x.data.head? = some 'e' := by
  intro x hx
  obtain ⟨nb, _, hmem⟩ := List.mem_flatMap.mp hx
  unfold renderBlock at hmem
  rcases List.mem_append.mp hmem with h | h
  · rcases List.mem_append.mp h with h | h
    · rw [List.mem_singleton.mp h]
      exact Or.inl rfl
    · obtain ⟨kv, _, hkv⟩ := List.mem_flatMap.mp h
      exact Or.inr (Or.inl (renderEntry_head kv.1 kv.2 x hkv))
  · rw [List.mem_singleton.mp h]
    exact Or.inr (Or.inr rfl)

/-- No rendered block piece is the frequency directive. -/
theorem renderBlocks_ne_freq (bs : Blocks) :
    ∀ x ∈ renderBlocks bs, x ≠ "! Freq\n" := by
  intro x hx h
  rcases renderBlocks_head bs x hx with hh | hh | hh <;>
    (rw [h] at hh
     rw [show ("! Freq\n").data.head? = some '!' from rfl] at hh
     exact absurd hh (by decide))

/-- The geometry reference line starts with `*`. -/
theorem xyzLine_ne_freq (charge spin : Int) (name : String) :
    "* xyzfile " ++ toString charge ++ " " ++ toString spin ++ " " ++ name ++ ".xyz\n\n" ≠
      "! Freq\n" := by
  intro h
  have h2 : ("* xyzfile " ++ toString charge ++ " " ++ toString spin ++ " " ++ name ++
      ".xyz\n\n").data.head? = ("! Freq\n").data.head? := by rw [h]
  rw [show ("* xyzfile " ++ toString charge ++ " " ++ toString spin ++ " " ++ name ++
      ".xyz\n\n").data.head? = some '*' from rfl] at h2
  rw [show ("! Freq\n").data.head? = some '!' from rfl] at h2
  exact absurd h2 (by decide)

/-! ### Classification of scanner errors

The section scanners can only raise runtime conversion errors
(`ValueError`/`IndexError`/`AttributeError`); the two pre-scan
`RuntimeError`s of `parse_output` are never produced after the scan has
started.  `notPre e` abbreviates that fact. -/

/-- The error is not one of the two pre-scan errors. -/
def notPre (e : PyError) : Prop :=
  e ≠ .missingOutputFile ∧ e ≠ .abnormalTermination

theorem readMullikenRows_error_mem (sa : Bool) :
    ∀ (l : List String) (ch sp : List ℚ) (e : PyError),
      readMullikenRows sa l ch sp = .error e → notPre e := by
  intro l
  induction l with
  | nil =>
    intro ch sp e h
    obtain rfl : PyError.indexError = e := by simpa [readMullikenRows] using h
    exact ⟨by simp, by simp⟩
  | cons buffer rest ih =>
    intro ch sp e h
    rw [readMullikenRows] at h
    dsimp only at h
    repeat' split at h
    all_goals first
      | exact Except.noConfusion h
      | exact ih _ _ _ h
      | (obtain rfl : _ = e := by simpa using h
         exact ⟨by simp, by simp⟩)

theorem mullikenLoop_error_mem (sections : Nat) :
    ∀ (n : Nat) (l : List String), l.length = n →
      ∀ (c : Nat) (sa : Bool) (ch sp : List ℚ) (e : PyError),
        mullikenLoop sections l c sa ch sp = .error e → notPre e := by
  intro n
  induction n using Nat.strong_induction_on with
  | _ n ih =>
    intro l hn c sa ch sp e h
    cases l with
    | nil => simp [mullikenLoop] at h
    | cons line rest =>
      rw [mullikenLoop] at h
      dsimp only at h
      repeat' split at h
      all_goals first
        | exact Except.noConfusion h
        | (rename_i e' heq
           obtain rfl : e' = e := by simpa using h
           exact readMullikenRows_error_mem _ _ _ _ _ heq)
        | (have hl := readMullikenRows_length _ _ _ _ _ _ _ (by assumption)
           refine ih _ ?_ _ rfl _ _ _ _ _ h
           simp only [List.length_drop] at hl
           simp only [List.length_cons] at hn
           omega)
        | (refine ih rest.length ?_ rest rfl _ _ _ _ _ h
           simp only [List.length_cons] at hn
           omega)

theorem readHirshfeldRows_error_mem :
    ∀ (l : List String) (ch sp : List ℚ) (e : PyError),
      readHirshfeldRows l ch sp = .error e → notPre e := by
  intro l
  induction l with
  | nil =>
    intro ch sp e h
    obtain rfl : PyError.indexError = e := by simpa [readHirshfeldRows] using h
    exact ⟨by simp, by simp⟩
  | cons buffer rest ih =>
    intro ch sp e h
    rw [readHirshfeldRows] at h
    dsimp only at h
    repeat' split at h
    all_goals first
      | exact Except.noConfusion h
      | exact ih _ _ _ h
      | (obtain rfl : _ = e := by simpa using h
         exact ⟨by simp, by simp⟩)

theorem hirshfeldLoop_error_mem :
    ∀ (n : Nat) (l : List String), l.length = n →
      ∀ (ch sp : List ℚ) (e : PyError),
        hirshfeldLoop l ch sp = .error e → notPre e := by
  intro n
  induction n using Nat.strong_induction_on with
  | _ n ih =>
    intro l hn ch sp e h
    cases l with
    | nil => simp [hirshfeldLoop] at h
    | cons line rest =>
      rw [hirshfeldLoop] at h
      repeat' split at h
      all_goals first
        | exact Except.noConfusion h
        | (rename_i e' heq
           obtain rfl : e' = e := by simpa using h
           exact readHirshfeldRows_error_mem _ _ _ _ heq)
        | (have hl := readHirshfeldRows_length _ _ _ _ _ _ (by assumption)
           refine ih _ ?_ _ rfl _ _ _ h
           simp only [List.length_drop] at hl
           simp only [List.length_cons] at hn
           omega)
        | (refine ih rest.length ?_ rest rfl _ _ _ h
           simp only [List.length_cons] at hn
           omega)

set_option maxHeartbeats 1000000 in
theorem parseFreqLine_error_mem (buffer : String) (e : PyError)
    (h : parseFreqLine buffer = .error e) : notPre e := by
  unfold parseFreqLine at h
  dsimp only at h
  split at h
  · obtain rfl : PyError.valueError = e := by simpa using h
    exact ⟨by simp, by simp⟩
  · exact Except.noConfusion h

theorem readFreqRows_error_mem :
    ∀ (l : List String) (fs : List ℚ) (w : Nat) (e : PyError),
      readFreqRows l fs w = .error e → notPre e := by
  intro l
  induction l with
  | nil =>
    intro fs w e h
    obtain rfl : PyError.valueError = e := by simpa [readFreqRows] using h
    exact ⟨by simp, by simp⟩
  | cons buffer rest ih =>
    intro fs w e h
    rw [readFreqRows] at h
    repeat' split at h
    all_goals first
      | exact Except.noConfusion h
      | exact ih _ _ _ h
      | (rename_i e' heq
         obtain rfl : e' = e := by simpa using h
         exact parseFreqLine_error_mem _ _ heq)

theorem appendRowToks_error_mem :
    ∀ (bufs : List (List ℚ)) (ts : List String) (e : PyError),
      appendRowToks bufs ts = .error e → notPre e := by
  intro bufs
  induction bufs with
  | nil =>
    intro ts e h
    cases ts with
    | nil => simp [appendRowToks] at h
    | cons t ts' =>
      obtain rfl : PyError.indexError = e := by simpa [appendRowToks] using h
      exact ⟨by simp, by simp⟩
  | cons b bs ih =>
    intro ts e h
    cases ts with
    | nil => simp [appendRowToks] at h
    | cons t ts' =>
      rw [appendRowToks] at h
      repeat' split at h
      all_goals first
        | exact Except.noConfusion h
        | (rename_i e' heq
           obtain rfl : e' = e := by simpa using h
           exact ih _ _ heq)
        | (obtain rfl : _ = e := by simpa using h
           exact ⟨by simp, by simp⟩)

theorem readModeRows_error_mem :
    ∀ (n : Nat) (bufs : List (List ℚ)) (lines : List String) (e : PyError),
      readModeRows n bufs lines = .error e → notPre e := by
  intro n
  induction n with
  | zero => intro bufs lines e h; simp [readModeRows] at h
  | succ n ih =>
    intro bufs lines e h
    cases lines with
    | nil =>
      rw [readModeRows] at h
      exact ih _ _ _ h
    | cons l rest =>
      rw [readModeRows] at h
      split at h
      · rename_i e' heq
        obtain rfl : e' = e := by simpa using h
        exact appendRowToks_error_mem _ _ _ heq
      · exact ih _ _ _ h

theorem readModeBlocks_error_mem (ncoords : Nat) (hasVib : Bool) :
    ∀ (m b : Nat), ncoords - 6 * b = m →
      ∀ (acc : List (List ℚ)) (lines : List String) (e : PyError),
        readModeBlocks ncoords hasVib b acc lines = .error e → notPre e := by
  intro m
  induction m using Nat.strong_induction_on with
  | _ m ih =>
    intro b hb acc lines e h
    rw [readModeBlocks] at h
    dsimp only at h
    split at h
    · exact Except.noConfusion h
    · split at h
      · rename_i e' heq
        obtain rfl : e' = e := by simpa using h
        exact readModeRows_error_mem _ _ _ _ heq
      · split at h
        · exact ih (ncoords - 6 * (b + 1)) (by omega) (b + 1) rfl _ _ _ h
        · obtain rfl : PyError.attributeError = e := by simpa using h
          exact ⟨by simp, by simp⟩

theorem readIRRows_error_mem (hasVib : Bool) :
    ∀ (l : List String) (acc : List (Int × ℚ)) (e : PyError),
      readIRRows hasVib l acc = .error e → notPre e := by
  intro l
  induction l with
  | nil =>
    intro acc e h
    obtain rfl : PyError.valueError = e := by simpa [readIRRows] using h
    exact ⟨by simp, by simp⟩
  | cons line rest ih =>
    intro acc e h
    rw [readIRRows] at h
    dsimp only at h
    repeat' split at h
    all_goals first
      | exact Except.noConfusion h
      | exact ih _ _ h
      | (obtain rfl : _ = e := by simpa using h
         exact ⟨by simp, by simp⟩)

theorem readOvertoneRows_error_mem (hasVib : Bool) :
    ∀ (l : List String) (acc : List (Int × Int × ℚ)) (e : PyError),
      readOvertoneRows hasVib l acc = .error e → notPre e := by
  intro l
  induction l with
  | nil =>
    intro acc e h
    obtain rfl : PyError.valueError = e := by simpa [readOvertoneRows] using h
    exact ⟨by simp, by simp⟩
  | cons line rest ih =>
    intro acc e h
    rw [readOvertoneRows] at h
    dsimp only at h
    repeat' split at h
    all_goals first
      | exact Except.noConfusion h
      | exact ih _ _ h
      | (obtain rfl : _ = e := by simpa using h
         exact ⟨by simp, by simp⟩)

theorem readRamanRows_error_mem (hasVib : Bool) :
    ∀ (l : List String) (acc : List (Int × ℚ × ℚ)) (e : PyError),
      readRamanRows hasVib l acc = .error e → notPre e := by
  intro l
  induction l with
  | nil =>
    intro acc e h
    obtain rfl : PyError.valueError = e := by simpa [readRamanRows] using h
    exact ⟨by simp, by simp⟩
  | cons line rest ih =>
    intro acc e h
    rw [readRamanRows] at h
    dsimp only at h
    repeat' split at h
    all_goals first
      | exact Except.noConfusion h
      | exact ih _ _ h
      | (obtain rfl : _ = e := by simpa using h
         exact ⟨by simp, by simp⟩)

theorem vibLoop_error_mem (ncoords : Nat) :
    ∀ (n : Nat) (l : List String), l.length = n →
      ∀ (vd : Option VibrationalData) (w : Nat) (e : PyError),
        vibLoop ncoords l vd w = .error e → notPre e := by
  intro n
  induction n using Nat.strong_induction_on with
  | _ n ih =>
    intro l hn vd w e h
    cases l with
    | nil => simp [vibLoop] at h
    | cons line rest =>
      rw [vibLoop] at h
      repeat' split at h
      all_goals first
        | exact Except.noConfusion h
        | (rename_i e' heq
           obtain rfl : e' = e := by simpa using h
           first
             | exact readFreqRows_error_mem _ _ _ _ heq
             | exact readModeBlocks_error_mem _ _ _ _ rfl _ _ _ heq
             | exact readIRRows_error_mem _ _ _ _ heq
             | exact readOvertoneRows_error_mem _ _ _ _ heq
             | exact readRamanRows_error_mem _ _ _ _ heq)
        | (refine ih _ ?_ _ rfl _ _ _ h
           simp only [List.length_cons] at hn
           first
             | (have hl := readFreqRows_length _ _ _ _ _ _ (by assumption)
                simp only [List.length_drop] at hl
                omega)
             | (have hl := readModeBlocks_length _ _ _ _ rfl _ _ _ _ (by assumption)
                simp only [List.length_drop] at hl
                omega)
             | (have hl := readIRRows_length _ _ _ _ _ (by assumption)
                simp only [List.length_drop] at hl
                omega)
             | (have hl := readOvertoneRows_length _ _ _ _ _ (by assumption)
                simp only [List.length_drop] at hl
                omega)
             | (have hl := readRamanRows_length _ _ _ _ _ (by assumption)
                simp only [List.length_drop] at hl
                omega)
             | omega)

/-- Errors of the Mulliken stage are scanner errors. -/
theorem mullikenStage_error_mem (lines : List String) (p p' : PropertySet)
    (e : PyError) (h : mullikenStage lines p = (p', some e)) : notPre e := by
  unfold mullikenStage at h
  split at h
  · rename_i e' heq
    obtain ⟨h1, rfl⟩ : p = p' ∧ e' = e := by simpa using h
    unfold mullikenScanSpycci at heq
    dsimp only at heq
    split at heq
    · exact mullikenLoop_error_mem _ _ _ rfl _ _ _ _ _ heq
    · exact Except.noConfusion heq
  · split at h <;> simp at h

/-- Errors of the Hirshfeld stage are scanner errors. -/
theorem hirshfeldStage_error_mem (lines : List String) (p p' : PropertySet)
    (e : PyError) (h : hirshfeldStage lines p = (p', some e)) : notPre e := by
  unfold hirshfeldStage at h
  split at h
  · rename_i e' heq
    obtain ⟨h1, rfl⟩ : p = p' ∧ e' = e := by simpa using h
    exact hirshfeldLoop_error_mem _ _ rfl _ _ _ heq
  · split at h <;> simp at h

/-- Errors of the vibrational stage are scanner errors. -/
theorem vibStage_error_mem (lines : List String) (n : Nat) (p p' : PropertySet)
    (e : PyError) (h : vibStage lines n p = (p', some e)) : notPre e := by
  unfold vibStage at h
  split at h
  · rename_i e' heq
    obtain ⟨h1, rfl⟩ : p = p' ∧ e' = e := by simpa using h
    exact vibLoop_error_mem _ _ _ rfl _ _ _ heq
  · split at h <;> simp at h

/-- A non-zero occurrence count witnesses the Python `in` operator. -/
theorem pyContains_eq_true (l sub : String)
    (h : countOcc sub.toList l.toList ≠ 0) : pyContains l sub = true := by
  have h' : countOcc sub.data l.data ≠ 0 := h
  simp [pyContains, String.toList, h']

/-- `notPre` is incompatible with being one of the two pre-scan errors. -/
theorem notPre_contra {e : PyError} (h : notPre e)
    (he : e = .missingOutputFile ∨ e = .abnormalTermination) : False := by
  rcases he with rfl | rfl
  · exact h.1 rfl
  · exact h.2 rfl

/-- An energy-stage error propagates unchanged out of `parse_output`. -/
theorem parse_output_energy_error (lines : List String) (n : Nat)
    (p p1 : PropertySet) (e : PyError) (hterm : hasNormalTermination lines = true)
    (h : energyStage lines p = (p1, some e)) :
    parse_output (some lines) n p = (p1, some e) := by
  unfold parse_output
  dsimp only
  rw [if_neg (by simp [hterm])]
  rw [h]

/-- A successful `parse_output` went through a successful energy stage, and
the later stages do not modify the energy fields. -/
theorem parse_output_success_energy (lines : List String) (n : Nat)
    (p pf : PropertySet) (hterm : hasNormalTermination lines = true)
    (h : parse_output (some lines) n p = (pf, none)) :
    ∃ p1, energyStage lines p = (p1, none) ∧
      pf.electronic_energy = p1.electronic_energy ∧
      pf.free_energy_correction = p1.free_energy_correction := by
  unfold parse_output at h
  dsimp only at h
  rw [if_neg (by simp [hterm])] at h
  split at h
  · rename_i p1 e1 heq
    simp at h
  · rename_i p1 heq
    refine ⟨p1, heq, ?_⟩
    split at h
    · rename_i p2 e2 heq2
      simp at h
    · rename_i p2 heq2
      split at h
      · rename_i p3 e3 heq3
        simp at h
      · rename_i p3 heq3
        have hv := vibStage_energy_fields lines n p3
        have hh := hirshfeldStage_energy_fields lines p2
        have hm := mullikenStage_energy_fields lines p1
        have hpf : (vibStage lines n p3).1 = pf := by rw [h]
        rw [heq2] at hm
        rw [heq3] at hh
        rw [hpf] at hv
        exact ⟨by rw [hv.1, hh.1, hm.1], by rw [hv.2, hh.2, hm.2]⟩

/-! ## The claims -/

/-- **C1** (amended).  For every log whose energy scan read a
`Final Gibbs free energy` value `g`:
(1) if no free-energy correction is set after the scan, `parse_output`
raises the fatal Gibbs-without-correction error;
(2) if the reconstruction `np.isclose(g, electronic + correction,
rtol=1e-9)` — which keeps NumPy's default *absolute* tolerance `1e-8`, so
the test is `|g - (e+c)| ≤ 1e-8 + 1e-9·|e+c|`, not a pure relative
tolerance — fails, `parse_output` raises the fatal Gibbs-mismatch error;
(3) when parsing succeeds, the reconstruction holds within that same
tolerance and the stored (derived) Gibbs free energy is exactly
`electronic + correction`. -/
theorem c1_gibbs_consistency_check (lines : List String) (n : Nat)
    (p p₁ : PropertySet) (g : ℚ) (hterm : hasNormalTermination lines = true)
    (hg : energyLoop lines p none = .ok (p₁, some g)) :
    (p₁.free_energy_correction = none →
      parse_output (some lines) n p = (p₁, some .gibbsWithoutCorrection)) ∧
    (∀ c, p₁.free_energy_correction ≠ none → p₁.gibbs_free_energy = some c →
      npIsClose g c = false →
      parse_output (some lines) n p = (p₁, some .gibbsMismatch)) ∧
    (∀ pf, parse_output (some lines) n p = (pf, none) →
      ∃ e c, p₁.electronic_energy = some e ∧ p₁.free_energy_correction = some c ∧
        npIsClose g (e + c) = true ∧ pf.gibbs_free_energy = some (e + c)) := by
  refine ⟨?_, ?_, ?_⟩
  · intro hcorr
    apply parse_output_energy_error lines n p p₁ _ hterm
    unfold energyStage
    rw [hg]
    dsimp only
    rw [if_pos hcorr]
  · intro c hcorr hgibbs hclose
    apply parse_output_energy_error lines n p p₁ _ hterm
    unfold energyStage
    rw [hg]
    dsimp only
    rw [if_neg hcorr, hgibbs]
    dsimp only
    rw [hclose]
    rfl
  · intro pf hok
    obtain ⟨p1', hstage, hpe, hpc⟩ :=
      parse_output_success_energy lines n p pf hterm hok
    unfold energyStage at hstage
    rw [hg] at hstage
    dsimp only at hstage
    split at hstage
    · simp at hstage
    · rename_i hcorr
      split at hstage
      · simp at hstage
      · rename_i c hgd
        split at hstage
        · rename_i hclose
          obtain rfl : p₁ = p1' := by simpa using hstage
          obtain ⟨e, he⟩ : ∃ e, p₁.electronic_energy = some e := by
            unfold PropertySet.gibbs_free_energy at hgd
            cases hee : p₁.electronic_energy with
            | none => rw [hee] at hgd; simp at hgd
            | some e => exact ⟨e, rfl⟩
          obtain ⟨cc, hcc⟩ : ∃ cc, p₁.free_energy_correction = some cc := by
            cases hee : p₁.free_energy_correction with
            | none => exact absurd hee hcorr
            | some cc => exact ⟨cc, rfl⟩
          have hsum : c = e + cc := by
            unfold PropertySet.gibbs_free_energy at hgd
            rw [he, hcc] at hgd
            simpa using hgd.symm
          refine ⟨e, cc, he, hcc, by rw [← hsum]; exact hclose, ?_⟩
          unfold PropertySet.gibbs_free_energy
          rw [hpe, hpc, he, hcc]
        · simp at hstage

/-- **C1** counterexample to the claim as stated.  In the log below the
electronic energy is `1.0`, the correction `-1.0` (so electronic +
correction is `0`), and the parsed Gibbs free energy `5e-9`; the
reconstruction fails any relative tolerance (`|5e-9 − 0| > 1e-9·|0|`),
yet `parse_output` succeeds without raising, because `np.isclose` keeps
its default absolute tolerance `1e-8`. -/
theorem c1_relative_tolerance_counterexample :
    (parse_output (some ["xy ****ORCA TERMINATED NORMALLY**** z",
        "FINAL SINGLE POINT ENERGY 1.0",
        "G-E(el)  der  -1.0 Eh  -627.5 kcal/mol",
        "Final Gibbs free energy  ...  0.000000005 Eh"]) 0 {}).2 = none ∧
    (parse_output (some ["xy ****ORCA TERMINATED NORMALLY**** z",
        "FINAL SINGLE POINT ENERGY 1.0",
        "G-E(el)  der  -1.0 Eh  -627.5 kcal/mol",
        "Final Gibbs free energy  ...  0.000000005 Eh"]) 0 {}).1 =
      { electronic_energy := some 1, free_energy_correction := some (-1) } ∧
    lineTok2Val "Final Gibbs free energy  ...  0.000000005 Eh" = some (5 / 10 ^ 9) ∧
    ¬ (|(5 / 10 ^ 9 : ℚ) - (1 + -1)| ≤ (1 / 10 ^ 9) * |(1 + -1 : ℚ)|) := by
  refine ⟨?_, ?_, ?_, by norm_num⟩
  · simp +decide [parse_output, hasNormalTermination, energyStage, energyLoop, energyLine,
      fspeStep, geStep, gibbsStep, pySplitWs, wsTokens, pyNegIdx, parseFloat?,
      parseFloat?.parseExp, digitsVal, isPyWs, List.dropWhile, List.takeWhile, npIsClose,
      PropertySet.gibbs_free_energy, mullikenStage, mullikenScanSpycci,
      hirshfeldStage, hirshfeldLoop, vibStage, vibLoop]
    norm_num [abs_ratDef]
  · simp +decide [parse_output, hasNormalTermination, energyStage, energyLoop, energyLine,
      fspeStep, geStep, gibbsStep, pySplitWs, wsTokens, pyNegIdx, parseFloat?,
      parseFloat?.parseExp, digitsVal, isPyWs, List.dropWhile, List.takeWhile, npIsClose,
      PropertySet.gibbs_free_energy, mullikenStage, mullikenScanSpycci,
      hirshfeldStage, hirshfeldLoop, vibStage, vibLoop]
    rw [if_pos (by norm_num [abs_ratDef])]
  · simp +decide [lineTok2Val, pySplitWs, wsTokens, pyNegIdx, parseFloat?,
      parseFloat?.parseExp, digitsVal, isPyWs, List.dropWhile, List.takeWhile]

/-- **C1** witness: a log with a Gibbs line but no `G-E(el)` line makes
`parse_output` raise the Gibbs-without-correction error (first conjunct of
the amended theorem at a concrete input). -/
theorem c1_gibbs_consistency_check_witness :
    parse_output (some ["xy ****ORCA TERMINATED NORMALLY****",
        "FINAL SINGLE POINT ENERGY -1.0",
        "Final Gibbs free energy  x  5.0 Eh"]) 0 {} =
      ({ electronic_energy := some (-1) }, some .gibbsWithoutCorrection) := by
  have hloop : energyLoop ["xy ****ORCA TERMINATED NORMALLY****",
      "FINAL SINGLE POINT ENERGY -1.0",
      "Final Gibbs free energy  x  5.0 Eh"] {} none =
      .ok ({ electronic_energy := some (-1) }, some 5) := by
    simp +decide [energyLoop, energyLine, fspeStep, geStep, gibbsStep, pySplitWs,
      wsTokens, pyNegIdx, parseFloat?, parseFloat?.parseExp, digitsVal, isPyWs,
      List.dropWhile, List.takeWhile]
  exact (c1_gibbs_consistency_check _ 0 _ _ 5 (by decide) hloop).1 rfl

/-- **C2** (amended).  An "in place" call leaves the molecule's properties
unmodified when `parse_output` fails with the missing-output-file or
abnormal-termination error (both are raised before any scan); but a
parse-inconsistency error raised *after* the energy scan can leave
already-parsed energy fields updated — the update is per-setter, not
all-or-nothing (see the counterexample). -/
theorem c2_early_errors_leave_properties (file : Option (List String))
    (n : Nat) (p p' : PropertySet) (e : PyError)
    (h : parse_output file n p = (p', some e))
    (he : e = .missingOutputFile ∨ e = .abnormalTermination) : p' = p := by
  cases file with
  | none =>
    obtain ⟨h1, h2⟩ : p = p' ∧ PyError.missingOutputFile = e := by
      simpa [parse_output] using h
    exact h1.symm
  | some lines =>
    unfold parse_output at h
    dsimp only at h
    split at h
    · obtain ⟨h1, h2⟩ : p = p' ∧ PyError.abnormalTermination = e := by simpa using h
      exact h1.symm
    · exfalso
      split at h
      · rename_i p1 e1 heq
        obtain ⟨h1, rfl⟩ : p1 = p' ∧ e1 = e := by simpa using h
        exact notPre_contra (energyStage_error_mem _ _ _ _ heq) he
      · rename_i p1 heq
        split at h
        · rename_i p2 e2 heq2
          obtain ⟨h1, rfl⟩ : p2 = p' ∧ e2 = e := by simpa using h
          exact notPre_contra (mullikenStage_error_mem _ _ _ _ heq2) he
        · rename_i p2 heq2
          split at h
          · rename_i p3 e3 heq3
            obtain ⟨h1, rfl⟩ : p3 = p' ∧ e3 = e := by simpa using h
            exact notPre_contra (hirshfeldStage_error_mem _ _ _ _ heq3) he
          · rename_i p3 heq3
            exact notPre_contra (vibStage_error_mem _ _ _ _ _ h) he

/-- **C2** counterexample to the claim as stated.  On an in-place parse of
the log below, `parse_output` fails with the Gibbs-mismatch
parse-inconsistency error, yet the molecule's `PropertySet` has already
been mutated: its electronic energy and free-energy correction were set
before the error fired — not an all-or-nothing update. -/
theorem c2_inplace_mutation_counterexample :
    parse_output (some ["xy ****ORCA TERMINATED NORMALLY**** z",
        "FINAL SINGLE POINT ENERGY -1.0",
        "G-E(el)  x  -0.25 Eh  -156.9 kcal/mol",
        "Final Gibbs free energy  x  5.0 Eh"]) 2 {} =
      ({ electronic_energy := some (-1), free_energy_correction := some (-(1/4)) },
        some .gibbsMismatch) ∧
    ({ electronic_energy := some (-1), free_energy_correction := some (-(1/4)) } :
        PropertySet) ≠ {} := by
  constructor
  · simp +decide [parse_output, hasNormalTermination, energyStage, energyLoop, energyLine,
      fspeStep, geStep, gibbsStep, pySplitWs, wsTokens, pyNegIdx, parseFloat?,
      parseFloat?.parseExp, digitsVal, isPyWs, List.dropWhile, List.takeWhile, npIsClose,
      PropertySet.gibbs_free_energy]
    norm_num [abs_ratDef]
  · intro hc
    have := congrArg PropertySet.electronic_energy hc
    simp at this

/-- **C2** witness: an abnormal-termination failure on a molecule that
already carries an electronic energy leaves the `PropertySet` untouched. -/
theorem c2_early_errors_leave_properties_witness :
    parse_output (some ["FINAL SINGLE POINT ENERGY -2.0"]) 0
        { electronic_energy := some 5 } =
      ({ electronic_energy := some 5 }, some .abnormalTermination) ∧
    ({ electronic_energy := some 5 } : PropertySet) = { electronic_energy := some 5 } := by
  have heval : parse_output (some ["FINAL SINGLE POINT ENERGY -2.0"]) 0
      { electronic_energy := some 5 } =
      ({ electronic_energy := some 5 }, some .abnormalTermination) := by
    simp +decide [parse_output, hasNormalTermination]
  exact ⟨heval,
    c2_early_errors_leave_properties (some ["FINAL SINGLE POINT ENERGY -2.0"]) 0
      { electronic_energy := some 5 } _ _ heval (Or.inr rfl)⟩

/-- **C3** (code bug).  Evaluation of the enumerated-option setters at the
failing input: on a job whose optimization level is `TIGHTOPT` and whose
print level is `NORMALPRINT`, assigning `None` to `optimization_level`
(source line 423) leaves `optimization_level` untouched and instead resets
`print_level` — the same cross-field reset happens in
`scf_convergence_level` (line 458) and `scf_convergence_strategy`
(line 492).  The other behaviours of the claim (invalid value raises,
lowercase synonym stored uppercase, `print_level := None` resets
`print_level` itself) hold. -/
theorem c3_none_reset_clobbers_print_level :
    (({ optimization_level := some "TIGHTOPT",
        print_level := some "NORMALPRINT" } : OrcaJobInfo).set_optimization_level none =
      .ok { optimization_level := some "TIGHTOPT", print_level := none }) ∧
    (({ scf_convergence_level := some "TIGHTSCF",
        print_level := some "NORMALPRINT" } : OrcaJobInfo).set_scf_convergence_level none =
      .ok { scf_convergence_level := some "TIGHTSCF", print_level := none }) ∧
    (({ scf_convergence_strategy := some "SLOWCONV",
        print_level := some "NORMALPRINT" } : OrcaJobInfo).set_scf_convergence_strategy none =
      .ok { scf_convergence_strategy := some "SLOWCONV", print_level := none }) ∧
    (({ print_level := some "NORMALPRINT" } : OrcaJobInfo).set_print_level none =
      .ok { print_level := none }) ∧
    (({} : OrcaJobInfo).set_optimization_level (some "tightopt") =
      .ok { optimization_level := some "TIGHTOPT" }) ∧
    (({} : OrcaJobInfo).set_optimization_level (some "BOGUS") =
      .error "not a valid optimization level") := by
  refine ⟨?_, ?_, ?_, ?_, ?_, ?_⟩ <;> decide

/-- **C4**.  `parse_output` raises the missing-artifact error when the
output file does not exist, and the abnormal-termination error when the
file exists but no line carries the ORCA termination marker — in both
cases before any property extraction (the returned `PropertySet` is the
input one) — and the two error conditions are distinct. -/
theorem c4_missing_file_and_abnormal_termination (lines : List String)
    (n : Nat) (p : PropertySet)
    (hterm : ∀ l ∈ lines, pyContains l "****ORCA TERMINATED NORMALLY****" = false) :
    parse_output none n p = (p, some .missingOutputFile) ∧
    parse_output (some lines) n p = (p, some .abnormalTermination) ∧
    PyError.missingOutputFile ≠ PyError.abnormalTermination := by
  refine ⟨rfl, ?_, by decide⟩
  have hnt : hasNormalTermination lines = false := by
    simp only [hasNormalTermination, List.any_eq_false]
    intro l hl
    simpa using hterm l hl
  unfold parse_output
  dsimp only
  rw [if_pos hnt]

/-- **C4** witness: a log whose numeric sections are perfectly well formed
but which lacks the termination marker still fails, and a missing file
fails with the other, distinct error. -/
theorem c4_missing_file_and_abnormal_termination_witness :
    parse_output none 2 {} = ({}, some .missingOutputFile) ∧
    parse_output (some ["FINAL SINGLE POINT ENERGY -100.123456"]) 2 {} =
      ({}, some .abnormalTermination) ∧
    PyError.missingOutputFile ≠ PyError.abnormalTermination :=
  c4_missing_file_and_abnormal_termination ["FINAL SINGLE POINT ENERGY -100.123456"] 2 {}
    (by decide)

/-- A successful energy stage went through a successful energy loop with
the same resulting properties. -/
theorem energyStage_ok (lines : List String) (p p1 : PropertySet)
    (h : energyStage lines p = (p1, none)) :
    ∃ g, energyLoop lines p none = .ok (p1, g) := by
  unfold energyStage at h
  split at h
  · simp at h
  · rename_i p' gibbs? heq
    have hp : p' = p1 := by
      repeat' split at h
      all_goals simpa using h
    exact ⟨gibbs?, hp ▸ heq⟩

/-- **C5**.  Last-match-wins: for every log accepted by `parse_output`, the
stored electronic energy is the value of the *last* `FINAL SINGLE POINT
ENERGY` line, the stored free-energy correction the value of the last
`G-E(el)` line, and the Gibbs scalar read by the energy scan the value of
the last `Final Gibbs free energy` line — so with two or more matching
lines the earlier values are overwritten. -/
theorem c5_last_match_wins (lines : List String) (n : Nat)
    (p pf : PropertySet) (hterm : hasNormalTermination lines = true)
    (h : parse_output (some lines) n p = (pf, none)) :
    (∀ m, (lines.filter (fun l => fspeP l)).getLast? = some m →
      pf.electronic_energy = lineLastTokVal m) ∧
    (∀ m, (lines.filter (fun l => geP l)).getLast? = some m →
      pf.free_energy_correction = lineTok4Val m) ∧
    (∀ p₁ g, energyLoop lines p none = .ok (p₁, g) →
      ∀ m, (lines.filter (fun l => gibbsP l)).getLast? = some m →
        g = lineTok2Val m) := by
  obtain ⟨p1, hstage, hpe, hpc⟩ := parse_output_success_energy lines n p pf hterm h
  obtain ⟨g0, hloop⟩ := energyStage_ok lines p p1 hstage
  obtain ⟨h1, h2, h3⟩ := energyLoop_spec lines p none p1 g0 hloop
  refine ⟨?_, ?_, ?_⟩
  · intro m hm
    rw [hpe, h1, hm]
    rfl
  · intro m hm
    rw [hpc, h2, hm]
    rfl
  · intro p₂ g hg m hm
    obtain ⟨h4, h5, h6⟩ := energyLoop_spec lines p none p₂ g hg
    rw [h6, hm]
    rfl

/-- **C5** witness: on a log with two lines of each kind, the stored
values come from the second (last) lines — `-2.5`, `0.2` — not the first
ones. -/
theorem c5_last_match_wins_witness :
    parse_output (some ["xy ****ORCA TERMINATED NORMALLY**** z",
        "FINAL SINGLE POINT ENERGY -1.5",
        "FINAL SINGLE POINT ENERGY -2.5",
        "G-E(el)  x  0.1 Eh  62.7 kcal/mol",
        "G-E(el)  x  0.2 Eh  125.5 kcal/mol",
        "Final Gibbs free energy  x  1.0 Eh",
        "Final Gibbs free energy  x  -2.3 Eh"]) 0 {} =
      ({ electronic_energy := some (-(5/2)), free_energy_correction := some (1/5) },
        none) ∧
    ({ electronic_energy := some (-(5/2)), free_energy_correction := some (1/5) } :
        PropertySet).electronic_energy =
      lineLastTokVal "FINAL SINGLE POINT ENERGY -2.5" ∧
    ({ electronic_energy := some (-(5/2)), free_energy_correction := some (1/5) } :
        PropertySet).free_energy_correction =
      lineTok4Val "G-E(el)  x  0.2 Eh  125.5 kcal/mol" := by
  have hrun : parse_output (some ["xy ****ORCA TERMINATED NORMALLY**** z",
      "FINAL SINGLE POINT ENERGY -1.5",
      "FINAL SINGLE POINT ENERGY -2.5",
      "G-E(el)  x  0.1 Eh  62.7 kcal/mol",
      "G-E(el)  x  0.2 Eh  125.5 kcal/mol",
      "Final Gibbs free energy  x  1.0 Eh",
      "Final Gibbs free energy  x  -2.3 Eh"]) 0 {} =
      ({ electronic_energy := some (-(5/2)), free_energy_correction := some (1/5) },
        none) := by
    simp +decide [parse_output, hasNormalTermination, energyStage, energyLoop, energyLine,
      fspeStep, geStep, gibbsStep, pySplitWs, wsTokens, pyNegIdx, parseFloat?,
      parseFloat?.parseExp, digitsVal, isPyWs, List.dropWhile, List.takeWhile, npIsClose,
      PropertySet.gibbs_free_energy, mullikenStage, mullikenScanSpycci,
      hirshfeldStage, hirshfeldLoop, vibStage, vibLoop]
    rw [if_pos (by norm_num [abs_ratDef])]
    norm_num
  have hc := c5_last_match_wins _ 0 {} _ (by decide) hrun
  exact ⟨hrun, hc.1 _ (by decide), hc.2.1 _ (by decide)⟩

/-- **C7**.  A `VIBRATIONAL FREQUENCIES` line whose value field is
`-45.3cm**-1 ***imaginary mode***` has its imaginary-mode suffix detected
and stripped before numeric conversion: the parsed frequency is exactly
`-45.3` with exactly one advisory warning and no error; the frequency-row
loop appends exactly that value and adds exactly one to the warning count;
and a plain positive line parses with zero warnings. -/
theorem c7_imaginary_mode_frequency :
    parseFreqLine "   6:   -45.3cm**-1 ***imaginary mode***" = .ok (-(453/10), 1) ∧
    (∀ fs w, readFreqRows ("   6:   -45.3cm**-1 ***imaginary mode***" :: "" :: []) fs w =
      .ok (fs ++ [-(453/10)], w + 1, [])) ∧
    parseFreqLine "   7:   120.50 cm**-1" = .ok (241/2, 0) := by
  have hp1 : parseFreqLine "   6:   -45.3cm**-1 ***imaginary mode***" =
      .ok (-(453/10), 1) := by
    simp +decide [parseFreqLine, pySplitChar, splitCharAux, pyEndsWith, pyRstrip,
      parseFloat?, parseFloat?.parseExp, digitsVal, isPyWs, List.dropWhile,
      List.takeWhile]
    norm_num
  refine ⟨hp1, ?_, ?_⟩
  · intro fs w
    rw [readFreqRows, if_neg (by decide), hp1]
    dsimp only
    rw [readFreqRows, if_pos rfl]
  · simp +decide [parseFreqLine, pySplitChar, splitCharAux, pyEndsWith, pyRstrip,
      parseFloat?, parseFloat?.parseExp, digitsVal, isPyWs, List.dropWhile,
      List.takeWhile]
    norm_num

/-- **C6**.  For a log whose single `MULLIKEN ATOMIC CHARGES` section
header does not contain `SPIN`, the Mulliken scanner stores a spin
population of exactly `0.0` for every atom row read: the parsed spin list
has the same length as the charge list with every entry `0.0`, and
`parse_output`'s Mulliken stage sets both properties. -/
theorem c6_mulliken_spin_default (pre rows post : List String)
    (header skipLine sumLine : String) (p : PropertySet)
    (hpre : ∀ l ∈ pre, countOcc mullikenMarker.toList l.toList = 0)
    (hheader : countOcc mullikenMarker.toList header.toList = 1)
    (hnospin : pyContains header "SPIN" = false)
    (hskip : countOcc mullikenMarker.toList skipLine.toList = 0)
    (hrows : ∀ r ∈ rows, countOcc mullikenMarker.toList r.toList = 0 ∧
      pyContains r "Sum of atomic charges" = false ∧ (mullikenRowVal r).isSome)
    (hsum : countOcc mullikenMarker.toList sumLine.toList = 0)
    (hsumhit : pyContains sumLine "Sum of atomic charges" = true)
    (hpost : ∀ l ∈ post, countOcc mullikenMarker.toList l.toList = 0)
    (hne : rows ≠ []) :
    mullikenScanSpycci (pre ++ header :: skipLine :: (rows ++ sumLine :: post)) =
      .ok (rows.map (fun r => (mullikenRowVal r).getD 0),
        List.replicate rows.length 0) ∧
    (List.replicate rows.length (0 : ℚ)).length =
      (rows.map (fun r => (mullikenRowVal r).getD 0)).length ∧
    (∀ q ∈ List.replicate rows.length (0 : ℚ), q = 0) ∧
    mullikenStage (pre ++ header :: skipLine :: (rows ++ sumLine :: post)) p =
      ({ p with
          mulliken_charges := some (rows.map (fun r => (mullikenRowVal r).getD 0)),
          mulliken_spin_populations := some (List.replicate rows.length 0) }, none) := by
  have hpre0 : ((pre.map fun l => countOcc mullikenMarker.toList l.toList)).sum = 0 :=
    List.sum_eq_zero (fun x hx => by
      obtain ⟨l, hl, rfl⟩ := List.mem_map.mp hx
      exact hpre l hl)
  have hrows0 : ((rows.map fun l => countOcc mullikenMarker.toList l.toList)).sum = 0 :=
    List.sum_eq_zero (fun x hx => by
      obtain ⟨l, hl, rfl⟩ := List.mem_map.mp hx
      exact (hrows l hl).1)
  have hpost0 : ((post.map fun l => countOcc mullikenMarker.toList l.toList)).sum = 0 :=
    List.sum_eq_zero (fun x hx => by
      obtain ⟨l, hl, rfl⟩ := List.mem_map.mp hx
      exact hpost l hl)
  have hsec : countMullikenSections
      (pre ++ header :: skipLine :: (rows ++ sumLine :: post)) = 1 := by
    unfold countMullikenSections
    rw [List.map_append, List.sum_append, List.map_cons, List.sum_cons, List.map_cons,
      List.sum_cons, List.map_append, List.sum_append, List.map_cons, List.sum_cons]
    rw [hpre0, hrows0, hpost0, hheader, hskip, hsum]
    norm_num
  have hread := readMullikenRows_spec rows post sumLine [] []
    (fun r hr => ⟨(hrows r hr).2.1, (hrows r hr).2.2⟩) hsumhit
  simp only [List.nil_append] at hread
  have hcm : pyContains header mullikenMarker = true :=
    pyContains_eq_true _ _ (by rw [hheader]; exact one_ne_zero)
  have hmapne : rows.map (fun r => (mullikenRowVal r).getD 0) ≠ [] := by
    simpa using hne
  have hscan : mullikenScanSpycci (pre ++ header :: skipLine :: (rows ++ sumLine :: post)) =
      .ok (rows.map (fun r => (mullikenRowVal r).getD 0),
        List.replicate rows.length 0) := by
    unfold mullikenScanSpycci
    dsimp only
    rw [hsec]
    rw [if_pos (by decide)]
    rw [mullikenLoop_skip 1 (by decide) pre
      (header :: skipLine :: (rows ++ sumLine :: post)) false [] [] hpre]
    rw [mullikenLoop]
    dsimp only
    simp only [hcm, hnospin, Bool.false_eq_true, reduceIte, Nat.zero_add,
      List.drop_succ_cons, List.drop_zero]
    split
    · rename_i e heq
      simp only [hnospin, Bool.false_eq_true, reduceIte] at heq
      rw [hread] at heq
      exact Except.noConfusion heq
    · rename_i ch' sp' rest2 heq
      simp only [hnospin, Bool.false_eq_true, reduceIte] at heq
      rw [hread] at heq
      obtain ⟨rfl, rfl, rfl⟩ :
          rows.map (fun r => (mullikenRowVal r).getD 0) = ch' ∧
          List.replicate rows.length (0 : ℚ) = sp' ∧ post = rest2 := by
        simpa using heq
      rw [if_pos hmapne]
  refine ⟨hscan, by simp, fun q hq => List.eq_of_mem_replicate hq, ?_⟩
  unfold mullikenStage
  rw [hscan]
  dsimp only
  rw [if_pos hmapne]

/-- **C6** witness: the spec's three-atom example — charges
`[0.1, -0.05, -0.05]` with no `SPIN` column — yields spins
`[0.0, 0.0, 0.0]`. -/
theorem c6_mulliken_spin_default_witness :
    mullikenScanSpycci ["MULLIKEN ATOMIC CHARGES", "--------------",
        "   0 O :    0.1", "   1 H :   -0.05", "   2 H :   -0.05",
        "Sum of atomic charges:    0.0"] =
      .ok ([1/10, -(1/20), -(1/20)], [0, 0, 0]) := by
  have h := (c6_mulliken_spin_default [] ["   0 O :    0.1", "   1 H :   -0.05",
      "   2 H :   -0.05"] [] "MULLIKEN ATOMIC CHARGES" "--------------"
      "Sum of atomic charges:    0.0" {} (by decide) (by decide) (by decide)
      (by decide) (by decide) (by decide) (by decide) (by decide) (by decide)).1
  simp only [List.nil_append, List.cons_append] at h
  rw [h]
  simp +decide [mullikenRowVal, pyDropColons, pySplitWs, wsTokens, isPyWs, parseFloat?,
    parseFloat?.parseExp, digitsVal, List.dropWhile, List.takeWhile]
  norm_num

/-- **C8**.  Block tiling of the `NORMAL MODES` reader: for a molecule
with `natoms` atoms and a well-formed section rendered from `3 * natoms`
columns of length `3 * natoms`, the scanner — which reads blocks of at
most 6 columns, recomputes the remaining-mode count `3*natoms - 6*block`
at each block and stops exactly when it reaches zero — returns the column
vectors in reading order: exactly `3 * natoms` vectors, each of length
`3 * natoms`, consuming the whole section. -/
theorem c8_normal_modes_block_tiling (natoms : Nat) (cols : List (List String))
    (hlen : cols.length = 3 * natoms)
    (hcols : ∀ col ∈ cols, col.length = 3 * natoms ∧
      ∀ t ∈ col, (parseFloat? t).isSome ∧ goodTok t = true) :
    readModeBlocks (3 * natoms) true 0 [] (mkModeSection (3 * natoms) cols) =
      .ok (cols.map (List.map (fun t => (parseFloat? t).getD 0)), []) ∧
    (cols.map (List.map (fun t => (parseFloat? t).getD 0))).length = 3 * natoms ∧
    ∀ v ∈ cols.map (List.map (fun t => (parseFloat? t).getD 0)),
      v.length = 3 * natoms := by
  have h := readModeBlocks_roundtrip (3 * natoms) cols.length 0 cols [] rfl
    (by omega) hcols
  refine ⟨by simpa using h, by simp [hlen], ?_⟩
  intro v hv
  obtain ⟨col, hcol, rfl⟩ := List.mem_map.mp hv
  simp [(hcols col hcol).1]

/-- **C8** witness: a one-atom molecule (3 coordinates, a single block of
3 columns) rendered and read back. -/
theorem c8_normal_modes_block_tiling_witness :
    readModeBlocks (3 * 1) true 0 []
        (mkModeSection (3 * 1) [["0.1", "0.2", "0.3"], ["1.0", "1.0", "1.0"],
          ["-0.5", "0.0", "0.5"]]) =
      .ok ([["0.1", "0.2", "0.3"], ["1.0", "1.0", "1.0"],
          ["-0.5", "0.0", "0.5"]].map (List.map (fun t => (parseFloat? t).getD 0)),
        []) ∧
    ([["0.1", "0.2", "0.3"], ["1.0", "1.0", "1.0"],
        ["-0.5", "0.0", "0.5"]].map (List.map (fun t => (parseFloat? t).getD 0))).length =
      3 * 1 ∧
    ∀ v ∈ [["0.1", "0.2", "0.3"], ["1.0", "1.0", "1.0"],
        ["-0.5", "0.0", "0.5"]].map (List.map (fun t => (parseFloat? t).getD 0)),
      v.length = 3 * 1 :=
  c8_normal_modes_block_tiling 1 [["0.1", "0.2", "0.3"], ["1.0", "1.0", "1.0"],
    ["-0.5", "0.0", "0.5"]] (by decide) (by decide)

/-- **C9**.  Whenever an optimization (`opt` or `opt_ts`) and an
analytical frequency analysis (`freq`) are both requested and the engine
has a solvent, `write_input` downgrades the request to numerical
frequencies: the rendered input contains the `! NumFreq\n` directive and
no piece is the analytical `! Freq\n` directive, the emitted warnings are
exactly the downgrade warning, and the returned job info has `freq`
cleared and `nfreq` set.  The vocabulary hypotheses record that the four
enumerated option fields hold validated values (as the setters
guarantee). -/
theorem c9_solvent_freq_downgrade (eng : OrcaEngine) (j : OrcaJobInfo)
    (charge spin : Int) (name : String)
    (hopt : j.opt = true ∨ j.opt_ts = true) (hfreq : j.freq = true)
    (hsolv : eng.solvent.isSome = true)
    (hol : ∀ s, j.optimization_level = some s → s ∈ OPT_LEVELS)
    (hlv : ∀ s, j.scf_convergence_level = some s → s ∈ SCF_LEVELS)
    (hst : ∀ s, j.scf_convergence_strategy = some s → s ∈ SCF_STRATEGIES)
    (hpl : ∀ s, j.print_level = some s → s ∈ PRINT_LEVELS) :
    "! NumFreq\n" ∈ (write_input eng j charge spin name).1 ∧
    "! Freq\n" ∉ (write_input eng j charge spin name).1 ∧
    (write_input eng j charge spin name).2.1 = [downgradeWarning] ∧
    (write_input eng j charge spin name).2.2.freq = false ∧
    (write_input eng j charge spin name).2.2.nfreq = true := by
  have hcond : downgradeCond eng j = true := by
    rcases hopt with h | h <;> simp [downgradeCond, h, hfreq, hsolv]
  unfold write_input
  dsimp only
  rw [if_pos hcond]
  refine ⟨?_, ?_, ?_, rfl, rfl⟩
  · have hD : "! NumFreq\n" ∈ directivePieces { j with freq := false, nfreq := true } := by
      unfold directivePieces
      simp
    exact List.mem_append.mpr (Or.inl (List.mem_append.mpr (Or.inl
      (List.mem_append.mpr (Or.inr hD)))))
  · intro hmem
    rcases List.mem_append.mp hmem with h | h
    · rcases List.mem_append.mp h with h | h
      · rcases List.mem_append.mp h with h | h
        · rcases List.mem_append.mp h with h | h
          · rcases List.mem_append.mp h with h | h
            · rcases List.mem_append.mp h with h | h
              · exact headerPiece_ne_freq j (List.mem_singleton.mp h).symm
              · exact methodPieces_ne_freq eng j _ h rfl
            · exact scfPieces_ne_freq j hlv hst _ h rfl
          · exact printPieces_ne_freq j hpl _ h rfl
        · exact directivePieces_ne_freq { j with freq := false, nfreq := true }
            rfl hol _ h rfl
      · exact renderBlocks_ne_freq _ _ h rfl
    · exact xyzLine_ne_freq charge spin name (List.mem_singleton.mp h).symm
  · simp [writeWarnings, hcond]

/-- **C9** witness: an optimization + analytical-frequency job in water is
downgraded to `! NumFreq` with the advisory warning. -/
theorem c9_solvent_freq_downgrade_witness :
    "! NumFreq\n" ∈ (write_input { solvent := some "water" }
      { opt := true, freq := true } 0 1 "mol").1 ∧
    "! Freq\n" ∉ (write_input { solvent := some "water" }
      { opt := true, freq := true } 0 1 "mol").1 ∧
    (write_input { solvent := some "water" }
      { opt := true, freq := true } 0 1 "mol").2.1 = [downgradeWarning] ∧
    (write_input { solvent := some "water" }
      { opt := true, freq := true } 0 1 "mol").2.2.freq = false ∧
    (write_input { solvent := some "water" }
      { opt := true, freq := true } 0 1 "mol").2.2.nfreq = true :=
  c9_solvent_freq_downgrade { solvent := some "water" }
    { opt := true, freq := true } 0 1 "mol" (Or.inl rfl) rfl rfl
    (fun s h => by cases h) (fun s h => by cases h) (fun s h => by cases h)
    (fun s h => by cases h)

/-- **C10**.  The spycci Mulliken scanner and the legacy compechem scanner
agree on every log with at least one `MULLIKEN ATOMIC CHARGES` occurrence
(the loop they run is identical); with zero occurrences the spycci scanner
skips parsing and returns empty lists (no property set), while the legacy
scanner enters its reading loop unconditionally — on the concrete
zero-section log below it reads past end of file and fails with an
`IndexError`. -/
theorem c10_legacy_scanner_divergence :
    (∀ lines, countMullikenSections lines ≠ 0 →
      mullikenScanSpycci lines = mullikenScanCompechem lines) ∧
    (∀ lines, countMullikenSections lines = 0 →
      mullikenScanSpycci lines = .ok ([], [])) ∧
    countMullikenSections ["no section marker here"] = 0 ∧
    mullikenScanCompechem ["no section marker here"] = .error .indexError := by
  refine ⟨?_, ?_, by decide, ?_⟩
  · intro lines h
    unfold mullikenScanSpycci mullikenScanCompechem
    dsimp only
    rw [if_pos h]
  · intro lines h
    unfold mullikenScanSpycci
    dsimp only
    rw [if_neg (not_not_intro h)]
  · simp +decide [mullikenScanCompechem, countMullikenSections, mullikenLoop,
      readMullikenRows]

/-- **C10** witness: on a one-section log the two scanners coincide (first
conjunct of the theorem applied at a concrete input). -/
theorem c10_legacy_scanner_divergence_witness :
    mullikenScanSpycci ["MULLIKEN ATOMIC CHARGES"] =
      mullikenScanCompechem ["MULLIKEN ATOMIC CHARGES"] :=
  c10_legacy_scanner_divergence.1 ["MULLIKEN ATOMIC CHARGES"] (by decide)

end Spycci
